import Mathlib

/-!
Shallow embedding of the monitord core (internal/monitor/service.go,
internal/monitor/shutdown.go, internal/monitor/types.go,
internal/config/config.go) and proofs about its specification.

Durations and timestamps are abstract integers; cancellation contexts are
identified by allocation numbers together with the list of their ancestor
identifiers (context.WithCancel records the parent chain); machine maps are
association lists with Go map lookup/insert semantics.
-/

set_option linter.unusedVariables false

namespace Monitord

/-! ## Data model (internal/config/config.go, internal/monitor/types.go) -/

/-- config.Endpoint: one monitored target. -/
structure Endpoint where
  name : String
  url : String
  interval : Int
  timeout : Int
  description : String
  tags : List String
  enabled : Bool
deriving DecidableEq, Repr

/-- config.MonitorConfig. -/
structure MonitorConfig where
  endpoints : List Endpoint
  configCheck : Int
deriving DecidableEq, Repr

/-- config.Config (database/logging fields are opaque strings to the core). -/
structure Config where
  databasePath : String
  monitor : MonitorConfig
  loggingPath : String
  loggingLevel : String
deriving DecidableEq, Repr

/-- monitor.HealthCheck; Go zero values (0, "") mean "unset". -/
structure HealthCheck where
  name : String
  url : String
  status : String
  statusCode : Int
  responseTime : Int
  timestamp : Int
  error : String
  tags : List String
deriving DecidableEq, Repr

/-- Outcome of the single outbound request issued by a probe:
either the request fails to complete with a cause description, or a
response arrives with a status code after some elapsed milliseconds. -/
inductive ProbeResult where
  | failure (msg : String)
  | response (code : Int) (elapsedMs : Int)
deriving DecidableEq, Repr

/-- performHealthCheck (service.go): builds the HealthCheck for one probe.
`now` is the probe start time (`start := time.Now()`). -/
def performHealthCheck (endp : Endpoint) (now : Int) (res : ProbeResult) : HealthCheck :=
  let check : HealthCheck :=
    { name := endp.name, url := endp.url, status := "", statusCode := 0,
      responseTime := 0, timestamp := now, error := "", tags := endp.tags }
  match res with
  | .failure msg => { check with status := "ERROR", error := msg }
  | .response code elapsedMs =>
    let check := { check with statusCode := code, responseTime := elapsedMs }
    if code == 200 then { check with status := "UP" }
    else { check with status := "DEGRADED" }

/-! ## Equality helpers (service.go) -/

/-- sliceEqual (service.go): length check then elementwise comparison. -/
def sliceEqual : List String → List String → Bool
  | [], [] => true
  | x :: xs, y :: ys => x == y && sliceEqual xs ys
  | _, _ => false

/-- endpointConfigEqual (service.go): compares URL, Interval, Timeout, Name
and Tags.  (Description and Enabled are not compared.) -/
def endpointConfigEqual (a b : Endpoint) : Bool :=
  a.url == b.url && a.interval == b.interval && a.timeout == b.timeout &&
    a.name == b.name && sliceEqual a.tags b.tags

/-! ## Cancellation scopes (context.WithCancel / context.Background) -/

/-- A cancellation context: its allocation id plus the ids of all its
ancestors (nearest parent first). -/
structure Ctx where
  id : Nat
  ancestors : List Nat
deriving DecidableEq, Repr

/-- context.Background(): the fixed scope 0 with no ancestors. -/
def background : Ctx := ⟨0, []⟩

/-- context.WithCancel(parent) with fresh allocation id. -/
def withCancel (parent : Ctx) (fresh : Nat) : Ctx :=
  ⟨fresh, parent.id :: parent.ancestors⟩

/-- A scope is (transitively) cancelled when its own id or any of its
ancestors has been cancelled. -/
def scopeCancelled (cancelled : List Nat) (c : Ctx) : Bool :=
  cancelled.contains c.id || c.ancestors.any (fun a => cancelled.contains a)

/-! ## Service state (monitor.Service, monitor.EndpointMonitor) -/

/-- monitor.EndpointMonitor: endpoint snapshot plus its cancellation scope
(the scope's cancel function cancels `scope.id`).  The lastCheck timestamp
is loop-local state, modelled separately by `LoopState`. -/
structure EndpointMonitor where
  endpoint : Endpoint
  scope : Ctx
deriving DecidableEq, Repr

/-- One launched polling goroutine: the scope it is bound to and the URL it
monitors. -/
structure LoopRec where
  scope : Ctx
  url : String
deriving DecidableEq, Repr

/-- monitor.Service mutable state: active configuration snapshot, the
URL-to-monitor map, the scope allocator, the set of cancelled scope ids,
all launched polling loops, the shutdownWg Add-count, and the context the
configuration watcher runs on (set by Start). -/
structure ServiceState where
  config : MonitorConfig
  endpoints : List (String × EndpointMonitor)
  nextScope : Nat
  cancelled : List Nat
  loops : List LoopRec
  workers : Nat
  watchScope : Option Ctx
deriving DecidableEq, Repr

/-- Go map read: the last write to a key wins; reading a missing key gives
none. -/
def mapLookup (k : String) : List (String × EndpointMonitor) → Option EndpointMonitor
  | [] => none
  | (k', v) :: rest => if k' = k then some v else mapLookup k rest

/-- Go map write: replace the entry for the key if present, else append. -/
def mapInsert (k : String) (v : EndpointMonitor) :
    List (String × EndpointMonitor) → List (String × EndpointMonitor)
  | [] => [(k, v)]
  | (k', v') :: rest =>
    if k' = k then (k, v) :: rest else (k', v') :: mapInsert k v rest

/-- NewService (service.go): empty monitor map; `base` abstracts the next
free scope-allocation number. -/
def initState (cfg : MonitorConfig) (base : Nat) : ServiceState :=
  { config := cfg, endpoints := [], nextScope := base, cancelled := [],
    loops := [], workers := 0, watchScope := none }

/-- The polling loops for `url` whose scope has not been (transitively)
cancelled. -/
def liveLoops (s : ServiceState) (url : String) : List LoopRec :=
  s.loops.filter (fun l => l.url == url && !scopeCancelled s.cancelled l.scope)

/-! ## Observable reconciliation events -/

/-- What a reconciliation cycle does to monitors: cancelling a monitor scope,
or launching a monitor for a URL. -/
inductive Event where
  | cancelledScope (id : Nat)
  | started (url : String)
deriving DecidableEq, Repr

/-! ## startEndpoint / Start (service.go) -/

/-- startEndpoint: derive a child scope from the parent, build the monitor,
register it under endpoint.URL (overwriting any prior entry), increment the
worker counter, launch the polling loop bound to the child scope. -/
def startEndpoint (parent : Ctx) (e : Endpoint) (s : ServiceState) :
    Except String ServiceState :=
  let scope := withCancel parent s.nextScope
  let monitor : EndpointMonitor := ⟨e, scope⟩
  .ok { s with
        endpoints := mapInsert e.url monitor s.endpoints,
        nextScope := s.nextScope + 1,
        workers := s.workers + 1,
        loops := s.loops ++ [⟨scope, e.url⟩] }

/-- The loop inside Start: start every enabled endpoint, failing fast. -/
def startList (root : Ctx) : List Endpoint → ServiceState → Except String ServiceState
  | [], s => .ok s
  | e :: rest, s =>
    if e.enabled then
      match startEndpoint root e s with
      | .error err => .error ("failed to start endpoint " ++ e.url ++ ": " ++ err)
      | .ok s' => startList root rest s'
    else startList root rest s

/-- Start (service.go): start all enabled endpoints of the current config,
then register the configuration watcher (Add(1); go watchConfig(ctx)) —
the watcher runs directly on the root context. -/
def start (root : Ctx) (s : ServiceState) : Except String ServiceState :=
  match startList root s.config.endpoints s with
  | .error err => .error err
  | .ok s' => .ok { s' with workers := s'.workers + 1, watchScope := some root }

/-! ## Reconciliation (service.go reloadConfig) -/

/-- The per-endpoint body of the first reloadConfig loop.  Skips disabled
endpoints.  For an existing URL whose configuration changed: cancel the old
monitor scope, call startEndpoint on a scope derived from
context.Background(), then copy the (freshly updated) live-map entry into
newEndpoints.  For an unchanged URL: copy the running monitor into
newEndpoints.  For a new URL: startEndpoint, then copy the live-map entry.
The live-map reads after startEndpoint mirror
`newEndpoints[endpoint.URL] = s.endpoints[endpoint.URL]` in the source;
their `none` branches are unreachable (see `mapLookup_after_startEndpoint`). -/
def processEndpoint (e : Endpoint) (s : ServiceState)
    (newEnds : List (String × EndpointMonitor)) (evs : List Event) :
    Except String (ServiceState × List (String × EndpointMonitor) × List Event) :=
  if e.enabled then
    match mapLookup e.url s.endpoints with
    | some m =>
      if endpointConfigEqual m.endpoint e then
        .ok (s, mapInsert e.url m newEnds, evs)
      else
        let s1 := { s with cancelled := s.cancelled ++ [m.scope.id] }
        match startEndpoint background e s1 with
        | .error err => .error ("failed to restart endpoint " ++ e.url ++ ": " ++ err)
        | .ok s2 =>
          let evs2 := evs ++ [.cancelledScope m.scope.id, .started e.url]
          match mapLookup e.url s2.endpoints with
          | some m' => .ok (s2, mapInsert e.url m' newEnds, evs2)
          | none => .ok (s2, newEnds, evs2)
    | none =>
      match startEndpoint background e s with
      | .error err => .error ("failed to start new endpoint " ++ e.url ++ ": " ++ err)
      | .ok s2 =>
        let evs2 := evs ++ [.started e.url]
        match mapLookup e.url s2.endpoints with
        | some m' => .ok (s2, mapInsert e.url m' newEnds, evs2)
        | none => .ok (s2, newEnds, evs2)
  else .ok (s, newEnds, evs)

/-- The first reloadConfig loop over the new configuration's endpoints. -/
def reloadLoop : List Endpoint → ServiceState →
    List (String × EndpointMonitor) → List Event →
    Except String (ServiceState × List (String × EndpointMonitor) × List Event)
  | [], s, newEnds, evs => .ok (s, newEnds, evs)
  | e :: rest, s, newEnds, evs =>
    match processEndpoint e s newEnds evs with
    | .error err => .error err
    | .ok (s', newEnds', evs') => reloadLoop rest s' newEnds' evs'

/-- The second reloadConfig loop: cancel every monitor of the (mutated)
live map whose URL has no entry in newEndpoints. -/
def removePhase (newEnds : List (String × EndpointMonitor)) :
    List (String × EndpointMonitor) → List Nat → List Event → List Nat × List Event
  | [], cancelled, evs => (cancelled, evs)
  | (url, m) :: rest, cancelled, evs =>
    if (mapLookup url newEnds).isSome then removePhase newEnds rest cancelled evs
    else removePhase newEnds rest (cancelled ++ [m.scope.id])
           (evs ++ [.cancelledScope m.scope.id])

/-- reloadConfig (service.go).  `fetch` is the result of the onReload
collaborator.  On fetch failure the error is wrapped and returned without
touching any state.  On success: run the diff loop, cancel removed
monitors, then atomically install newEndpoints and the new MonitorConfig. -/
def reloadConfig (fetch : Except String Config) (s : ServiceState) :
    Except String (ServiceState × List Event) :=
  match fetch with
  | .error err => .error ("failed to reload config: " ++ err)
  | .ok cfg =>
    match reloadLoop cfg.monitor.endpoints s [] [] with
    | .error err => .error err
    | .ok (s2, newEnds, evs) =>
      let rp := removePhase newEnds s2.endpoints s2.cancelled evs
      .ok ({ s2 with endpoints := newEnds, config := cfg.monitor,
                     cancelled := rp.1 }, rp.2)

/-! ## Watch loop (service.go watchConfig) -/

/-- One wakeup of the configuration-watch loop. -/
inductive WatchEvent where
  | ctxDone
  | tick (fetch : Except String Config)

/-- One iteration of watchConfig's select: on context cancellation the loop
returns; on a ticker tick it runs reloadConfig, logging (and otherwise
ignoring) any error.  The Bool is whether the loop keeps running. -/
def watchStep (ev : WatchEvent) (s : ServiceState) :
    ServiceState × List Event × Bool :=
  match ev with
  | .ctxDone => (s, [], false)
  | .tick fetch =>
    match reloadConfig fetch s with
    | .error _ => (s, [], true)
    | .ok (s', evs) => (s', evs, true)

/-! ## Polling loop (service.go monitorEndpoint) -/

/-- Loop-local state of one polling goroutine. -/
structure LoopState where
  lastCheck : Int
deriving DecidableEq, Repr

/-- One wakeup of a polling loop: context cancellation, or a ticker tick
with the probe's outcome and the storage collaborator's answer
(`some errMsg` when SaveCheck fails). -/
inductive TickEvent where
  | ctxDone
  | tick (probe : ProbeResult) (saveResult : Option String)

/-- One iteration of monitorEndpoint's select.  On a tick: perform the
probe, hand the HealthCheck to storage (a failure is logged and otherwise
ignored), record the probe timestamp as lastCheck, keep looping.  Returns
(loop state, the check handed to storage if any, whether the loop keeps
running). -/
def monitorStep (endp : Endpoint) (now : Int) (ev : TickEvent) (ls : LoopState) :
    LoopState × Option HealthCheck × Bool :=
  match ev with
  | .ctxDone => (ls, none, false)
  | .tick probe saveResult =>
    let check := performHealthCheck endp now probe
    ({ lastCheck := check.timestamp }, some check, true)

/-! ## Shutdown (service.go Shutdown, shutdown.go ShutdownManager) -/

/-- ShutdownManager.Shutdown (shutdown.go): select between the WaitGroup
draining and time.After(timeout).  `drainTime` abstracts the instant the
outstanding-worker count reaches zero (none: never). -/
def shutdownManagerShutdown (timeout : Int) (drainTime : Option Int) : Bool :=
  match drainTime with
  | some t => t < timeout
  | none => false

/-- NewShutdownManager uses a fixed 5-second deadline. -/
def shutdownManagerTimeoutNs : Int := 5000000000

/-- Service.Shutdown (service.go): under the lock, cancel every active
monitor's scope; release the lock; then select between the shutdownWg
draining and the caller context's deadline.  `drainTime` abstracts the
instant the worker count reaches zero; the result is `.ok` on drain and
the context's deadline error otherwise.  No loop is forcibly stopped. -/
def serviceShutdown (s : ServiceState) (deadline : Int) (drainTime : Option Int) :
    ServiceState × Except String Unit :=
  let s' := { s with cancelled := s.cancelled ++ s.endpoints.map (fun p => p.2.scope.id) }
  match drainTime with
  | some t =>
    if t < deadline then (s', .ok ()) else (s', .error "context deadline exceeded")
  | none => (s', .error "context deadline exceeded")

/-! ## Derived notions used by the claims -/

/-- URLs of the enabled endpoints of a configuration, in order. -/
def enabledUrls (cfg : MonitorConfig) : List String :=
  (cfg.endpoints.filter (fun e => e.enabled)).map (fun e => e.url)

/-! ## Concrete fixtures -/

/-- A concrete endpoint used in concrete runs. -/
def epA : Endpoint :=
  { name := "a", url := "u", interval := 60, timeout := 10,
    description := "d", tags := ["t"], enabled := true }

/-- epA with only its interval changed. -/
def epAFast : Endpoint := { epA with interval := 30 }

/-- epA with only its description changed. -/
def epANewDesc : Endpoint := { epA with description := "e" }

/-- A second endpoint sharing epA's URL but with a different name. -/
def epB : Endpoint := { epA with name := "b" }

/-- Initial configuration holding epA. -/
def cfgA : MonitorConfig := { endpoints := [epA], configCheck := 180 }

/-- Fetched configuration where epA's interval changed. -/
def cfgAFast : Config :=
  { databasePath := "", monitor := { endpoints := [epAFast], configCheck := 180 },
    loggingPath := "", loggingLevel := "" }

/-- Fetched configuration where only epA's description changed. -/
def cfgANewDesc : Config :=
  { databasePath := "", monitor := { endpoints := [epANewDesc], configCheck := 180 },
    loggingPath := "", loggingLevel := "" }

/-- Fetched configuration identical to cfgA. -/
def cfgASame : Config :=
  { databasePath := "", monitor := cfgA,
    loggingPath := "", loggingLevel := "" }

/-- Configuration with two enabled endpoints sharing one URL. -/
def cfgDup : MonitorConfig := { endpoints := [epA, epB], configCheck := 180 }

/-- Fetched configuration byte-identical to cfgDup. -/
def cfgDupSame : Config :=
  { databasePath := "", monitor := cfgDup, loggingPath := "", loggingLevel := "" }

/-- The root scope main derives from context.Background(). -/
def root0 : Ctx := ⟨1, [0]⟩

/-- State after Start on the single-endpoint configuration. -/
def runStartA : ServiceState :=
  match start root0 (initState cfgA 2) with
  | .ok s => s
  | .error _ => initState cfgA 2

/-- State after Start on cfgA followed by a reconciliation that changes
epA's interval (so its monitor is restarted). -/
def runReloadFast : ServiceState :=
  match reloadConfig (.ok cfgAFast) runStartA with
  | .ok r => r.1
  | .error _ => runStartA

/-- State after Start on the duplicate-URL configuration. -/
def runStartDup : ServiceState :=
  match start root0 (initState cfgDup 2) with
  | .ok s => s
  | .error _ => initState cfgDup 2

/-! ## Invariants and reachability -/

/-- The scope identifiers `c` could be cancelled through all lie below
`base`, the first identifier the Service's own allocations use. -/
def parentOk (base : Nat) (c : Ctx) : Prop :=
  c.id < base ∧ ∀ a ∈ c.ancestors, a < base

/-- `c` is a (strict) descendant of `root`. -/
def isDescendantOf (root : Ctx) (c : Ctx) : Bool :=
  c.ancestors.contains root.id

/-- Structural invariant of the service state (scope-allocation discipline
plus the correspondence between the monitor map and the live loops). -/
structure InvCore (base : Nat) (s : ServiceState) : Prop where
  base_pos : 0 < base
  next_ge : base ≤ s.nextScope
  canc_lb : ∀ c ∈ s.cancelled, base ≤ c
  canc_ub : ∀ c ∈ s.cancelled, c < s.nextScope
  mon_live : ∀ url m, mapLookup url s.endpoints = some m →
    scopeCancelled s.cancelled m.scope = false
  mon_lb : ∀ url m, mapLookup url s.endpoints = some m → base ≤ m.scope.id
  mon_ub : ∀ url m, mapLookup url s.endpoints = some m → m.scope.id < s.nextScope
  mon_anc : ∀ url m, mapLookup url s.endpoints = some m →
    ∀ a ∈ m.scope.ancestors, a < base
  mon_inj : ∀ url₁ m₁ url₂ m₂, mapLookup url₁ s.endpoints = some m₁ →
    mapLookup url₂ s.endpoints = some m₂ → m₁.scope.id = m₂.scope.id → url₁ = url₂
  loop_ub : ∀ l ∈ s.loops, l.scope.id < s.nextScope
  loop_live_scope : ∀ l ∈ s.loops, scopeCancelled s.cancelled l.scope = false →
    ∃ m, mapLookup l.url s.endpoints = some m ∧ l.scope = m.scope
  loop_one : ∀ url m, mapLookup url s.endpoints = some m → (liveLoops s url).length = 1
  keys_nodup : (s.endpoints.map Prod.fst).Nodup

/-- Full service-state invariant: structural invariant plus "the monitor
map's keys are exactly the URLs of the enabled endpoints of the most
recently reconciled configuration". -/
def Inv (base : Nat) (s : ServiceState) : Prop :=
  InvCore base s ∧ ∀ url, (mapLookup url s.endpoints).isSome = true ↔ url ∈ enabledUrls s.config

/-- Invariant carried through the first reloadConfig loop: the live state
keeps its structural invariant and newEndpoints only copies live-map
entries. -/
structure LoopInv (base : Nat) (s : ServiceState)
    (n : List (String × EndpointMonitor)) : Prop where
  core : InvCore base s
  agree : ∀ url m, mapLookup url n = some m → mapLookup url s.endpoints = some m
  n_nodup : (n.map Prod.fst).Nodup

/-- States reachable by Start on an initial configuration whose enabled
URLs are pairwise distinct, followed by any number of successful
reconciliations. -/
inductive Reachable (base : Nat) (root : Ctx) : ServiceState → Prop where
  | init : ∀ cfg s', (enabledUrls cfg).Nodup →
      start root (initState cfg base) = .ok s' → Reachable base root s'
  | step : ∀ s cfg s' evs, Reachable base root s →
      reloadConfig (.ok cfg) s = .ok (s', evs) → Reachable base root s'

/-! # Theorems -/

/-! ## Helper lemmas -/

/-- startEndpoint computed explicitly: it always succeeds. -/
theorem startEndpoint_eq (parent : Ctx) (e : Endpoint) (s : ServiceState) :
    startEndpoint parent e s = .ok { s with
      endpoints := mapInsert e.url ⟨e, withCancel parent s.nextScope⟩ s.endpoints,
      nextScope := s.nextScope + 1,
      workers := s.workers + 1,
      loops := s.loops ++ [⟨withCancel parent s.nextScope, e.url⟩] } := rfl

/-- The loop inside Start never fails. -/
theorem startList_ok (root : Ctx) :
    ∀ (eps : List Endpoint) (s : ServiceState), ∃ s', startList root eps s = .ok s'
  | [], s => ⟨s, rfl⟩
  | e :: rest, s => by
    by_cases he : e.enabled
    · obtain ⟨s', h⟩ := startList_ok root rest
        { s with
          endpoints := mapInsert e.url ⟨e, withCancel root s.nextScope⟩ s.endpoints,
          nextScope := s.nextScope + 1,
          workers := s.workers + 1,
          loops := s.loops ++ [⟨withCancel root s.nextScope, e.url⟩] }
      exact ⟨s', by simp [startList, he, startEndpoint, h]⟩
    · obtain ⟨s', h⟩ := startList_ok root rest s
      exact ⟨s', by simp [startList, he, h]⟩

/-- processEndpoint never fails. -/
theorem processEndpoint_ok (e : Endpoint) (s : ServiceState)
    (n : List (String × EndpointMonitor)) (evs : List Event) :
    ∃ r, processEndpoint e s n evs = .ok r := by
  simp only [processEndpoint, startEndpoint]
  repeat' split
  all_goals exact ⟨_, rfl⟩

/-- The first reloadConfig loop never fails. -/
theorem reloadLoop_ok :
    ∀ (eps : List Endpoint) (s : ServiceState)
      (n : List (String × EndpointMonitor)) (evs : List Event),
      ∃ r, reloadLoop eps s n evs = .ok r
  | [], s, n, evs => ⟨(s, n, evs), rfl⟩
  | e :: rest, s, n, evs => by
    obtain ⟨⟨s', n', evs'⟩, h⟩ := processEndpoint_ok e s n evs
    obtain ⟨r, hr⟩ := reloadLoop_ok rest s' n' evs'
    exact ⟨r, by simp [reloadLoop, h, hr]⟩

/-- Go map lookup after a write. -/
theorem mapLookup_mapInsert (k u : String) (v : EndpointMonitor) :
    ∀ l, mapLookup u (mapInsert k v l) = if k = u then some v else mapLookup u l
  | [] => by
    by_cases h : k = u <;> simp [mapInsert, mapLookup, h]
  | (k', v') :: rest => by
    by_cases hk : k' = k
    · subst hk
      by_cases h : k' = u <;> simp [mapInsert, mapLookup, h]
    · by_cases h : k' = u
      · subst h
        have hne : k ≠ k' := fun he => hk he.symm
        simp [mapInsert, hk, mapLookup, hne]
      · simp [mapInsert, mapLookup, hk, h, mapLookup_mapInsert k u v rest]

/-- A successful lookup names a list member. -/
theorem mem_of_mapLookup (u : String) (m : EndpointMonitor) :
    ∀ l, mapLookup u l = some m → (u, m) ∈ l
  | [], h => by simp [mapLookup] at h
  | (k', v') :: rest, h => by
    by_cases hk : k' = u
    · subst hk
      simp [mapLookup] at h
      simp [h]
    · simp only [mapLookup, if_neg hk] at h
      exact List.mem_cons_of_mem _ (mem_of_mapLookup u m rest h)

/-- A list member has a successful lookup (of something). -/
theorem mapLookup_isSome_of_mem (u : String) (m : EndpointMonitor) :
    ∀ l, (u, m) ∈ l → (mapLookup u l).isSome = true
  | [], h => by simp at h
  | (k', v') :: rest, h => by
    by_cases hk : k' = u
    · simp [mapLookup, hk]
    · rcases List.mem_cons.1 h with h' | h'
      · rw [Prod.mk.injEq] at h'
        exact absurd h'.1.symm hk
      · simpa [mapLookup, hk] using mapLookup_isSome_of_mem u m rest h'

/-- With pairwise-distinct keys, membership pins down the lookup. -/
theorem mapLookup_eq_of_mem_nodup (u : String) (m : EndpointMonitor) :
    ∀ l, (l.map Prod.fst).Nodup → (u, m) ∈ l → mapLookup u l = some m
  | [], _, h => by simp at h
  | (k', v') :: rest, hnd, h => by
    rcases List.mem_cons.1 h with h' | h'
    · rw [Prod.mk.injEq] at h'
      obtain ⟨rfl, rfl⟩ := h'
      simp [mapLookup]
    · have h1 : k' ∉ rest.map Prod.fst := (List.nodup_cons.1 (by simpa using hnd)).1
      have h2 : (rest.map Prod.fst).Nodup := (List.nodup_cons.1 (by simpa using hnd)).2
      have hk : k' ≠ u := by
        intro hk
        subst hk
        exact h1 (List.mem_map.2 ⟨(k', m), h', rfl⟩)
      simpa [mapLookup, hk] using mapLookup_eq_of_mem_nodup u m rest h2 h'

/-- Members of mapInsert: the written pair or an original member. -/
theorem mapInsert_mem_cases (k : String) (v : EndpointMonitor) :
    ∀ l p, p ∈ mapInsert k v l → p.1 = k ∨ p ∈ l
  | [], p, hp => by
    simp [mapInsert] at hp
    exact Or.inl (by simp [hp])
  | (k', v') :: rest, p, hp => by
    by_cases hk : k' = k
    · subst hk
      simp only [mapInsert, if_pos rfl] at hp
      rcases List.mem_cons.1 hp with h | h
      · exact Or.inl (by simp [h])
      · exact Or.inr (List.mem_cons_of_mem _ h)
    · simp only [mapInsert, if_neg hk] at hp
      rcases List.mem_cons.1 hp with h | h
      · exact Or.inr (by simp [h])
      · rcases mapInsert_mem_cases k v rest p h with h' | h'
        · exact Or.inl h'
        · exact Or.inr (List.mem_cons_of_mem _ h')

/-- mapInsert preserves key distinctness. -/
theorem mapInsert_keys_nodup (k : String) (v : EndpointMonitor) :
    ∀ l, (l.map Prod.fst).Nodup → ((mapInsert k v l).map Prod.fst).Nodup
  | [], _ => by simp [mapInsert]
  | (k', v') :: rest, hnd => by
    have h1 : k' ∉ rest.map Prod.fst := (List.nodup_cons.1 (by simpa using hnd)).1
    have h2 : (rest.map Prod.fst).Nodup := (List.nodup_cons.1 (by simpa using hnd)).2
    by_cases hk : k' = k
    · subst hk
      simp only [mapInsert, if_pos rfl]
      simpa using hnd
    · simp only [mapInsert, if_neg hk, List.map_cons]
      refine List.nodup_cons.2 ⟨?_, mapInsert_keys_nodup k v rest h2⟩
      intro hmem
      rcases List.mem_map.1 hmem with ⟨p, hp, hfst⟩
      rcases mapInsert_mem_cases k v rest p hp with hpk | hpin
      · exact hk (by rw [← hfst, hpk])
      · exact h1 (List.mem_map.2 ⟨p, hpin, hfst⟩)

/-- scopeCancelled, membership form. -/
theorem scopeCancelled_iff (cancelled : List Nat) (c : Ctx) :
    scopeCancelled cancelled c = true ↔
      c.id ∈ cancelled ∨ ∃ a ∈ c.ancestors, a ∈ cancelled := by
  simp [scopeCancelled]

/-- scopeCancelled, negated membership form. -/
theorem scopeCancelled_eq_false_iff (cancelled : List Nat) (c : Ctx) :
    scopeCancelled cancelled c = false ↔
      c.id ∉ cancelled ∧ ∀ a ∈ c.ancestors, a ∉ cancelled := by
  rw [← Bool.not_eq_true, scopeCancelled_iff]
  push_neg
  tauto

/-- A scope dead under a cancel set stays dead under any superset. -/
theorem scopeCancelled_mono (c : Ctx) (old new : List Nat)
    (hsub : ∀ x ∈ old, x ∈ new) (h : scopeCancelled old c = true) :
    scopeCancelled new c = true := by
  rw [scopeCancelled_iff] at h ⊢
  rcases h with h | ⟨a, ha, h⟩
  · exact Or.inl (hsub _ h)
  · exact Or.inr ⟨a, ha, hsub _ h⟩

/-- A scope live under a cancel set is live under any subset. -/
theorem scopeCancelled_anti (c : Ctx) (old new : List Nat)
    (hsub : ∀ x ∈ old, x ∈ new) (h : scopeCancelled new c = false) :
    scopeCancelled old c = false := by
  by_contra hc
  rw [Bool.not_eq_false] at hc
  rw [scopeCancelled_mono c old new hsub hc] at h
  cases h

/-- sliceEqual decides list equality. -/
theorem sliceEqual_iff : ∀ a b : List String, sliceEqual a b = true ↔ a = b
  | [], [] => by simp [sliceEqual]
  | [], _ :: _ => by simp [sliceEqual]
  | _ :: _, [] => by simp [sliceEqual]
  | x :: xs, y :: ys => by
    simp [sliceEqual, sliceEqual_iff xs ys]

/-- endpointConfigEqual compares exactly URL, interval, timeout, name and
tags — the description (and enabled) fields do not enter. -/
theorem endpointConfigEqual_iff (a b : Endpoint) :
    endpointConfigEqual a b = true ↔
      (a.url = b.url ∧ a.interval = b.interval ∧ a.timeout = b.timeout ∧
       a.name = b.name ∧ a.tags = b.tags) := by
  simp [endpointConfigEqual, sliceEqual_iff, and_assoc]

/-- processEndpoint on a disabled endpoint does nothing. -/
theorem processEndpoint_disabled (e : Endpoint) (s : ServiceState)
    (n : List (String × EndpointMonitor)) (evs : List Event)
    (he : e.enabled = false) :
    processEndpoint e s n evs = .ok (s, n, evs) := by
  simp [processEndpoint, he]

/-- processEndpoint on an enabled endpoint whose running monitor's snapshot
compares equal leaves the service state untouched and copies the running
monitor into newEndpoints. -/
theorem processEndpoint_unchanged (e : Endpoint) (s : ServiceState)
    (n : List (String × EndpointMonitor)) (evs : List Event) (m : EndpointMonitor)
    (he : e.enabled = true) (hm : mapLookup e.url s.endpoints = some m)
    (heq : endpointConfigEqual m.endpoint e = true) :
    processEndpoint e s n evs = .ok (s, mapInsert e.url m n, evs) := by
  simp [processEndpoint, he, hm, heq]

/-- processEndpoint on an enabled endpoint whose running monitor's snapshot
compares different: cancel the old scope, then start a fresh monitor whose
scope derives from context.Background(). -/
theorem processEndpoint_changed (e : Endpoint) (s : ServiceState)
    (n : List (String × EndpointMonitor)) (evs : List Event) (m : EndpointMonitor)
    (he : e.enabled = true) (hm : mapLookup e.url s.endpoints = some m)
    (heq : endpointConfigEqual m.endpoint e = false) :
    processEndpoint e s n evs = .ok
      ({ s with
         endpoints := mapInsert e.url ⟨e, withCancel background s.nextScope⟩ s.endpoints,
         cancelled := s.cancelled ++ [m.scope.id],
         nextScope := s.nextScope + 1,
         workers := s.workers + 1,
         loops := s.loops ++ [⟨withCancel background s.nextScope, e.url⟩] },
       mapInsert e.url ⟨e, withCancel background s.nextScope⟩ n,
       evs ++ [.cancelledScope m.scope.id, .started e.url]) := by
  have hl : mapLookup e.url
      (mapInsert e.url ⟨e, withCancel background s.nextScope⟩ s.endpoints) =
      some ⟨e, withCancel background s.nextScope⟩ := by
    rw [mapLookup_mapInsert]
    simp
  simp [processEndpoint, he, hm, heq, startEndpoint, hl]

/-- processEndpoint on an enabled endpoint with no running monitor: start a
fresh monitor (scope derived from context.Background()) without cancelling
anything. -/
theorem processEndpoint_new (e : Endpoint) (s : ServiceState)
    (n : List (String × EndpointMonitor)) (evs : List Event)
    (he : e.enabled = true) (hm : mapLookup e.url s.endpoints = none) :
    processEndpoint e s n evs = .ok
      ({ s with
         endpoints := mapInsert e.url ⟨e, withCancel background s.nextScope⟩ s.endpoints,
         nextScope := s.nextScope + 1,
         workers := s.workers + 1,
         loops := s.loops ++ [⟨withCancel background s.nextScope, e.url⟩] },
       mapInsert e.url ⟨e, withCancel background s.nextScope⟩ n,
       evs ++ [.started e.url]) := by
  have hl : mapLookup e.url
      (mapInsert e.url ⟨e, withCancel background s.nextScope⟩ s.endpoints) =
      some ⟨e, withCancel background s.nextScope⟩ := by
    rw [mapLookup_mapInsert]
    simp
  simp [processEndpoint, he, hm, startEndpoint, hl]

/-- removePhase cancels nothing when every live-map URL survives into
newEndpoints. -/
theorem removePhase_all_present (newEnds : List (String × EndpointMonitor)) :
    ∀ (olds : List (String × EndpointMonitor)) (cancelled : List Nat) (evs : List Event),
      (∀ p ∈ olds, (mapLookup p.1 newEnds).isSome = true) →
      removePhase newEnds olds cancelled evs = (cancelled, evs)
  | [], c, evs, _ => rfl
  | (url, m) :: rest, c, evs, h => by
    have h1 : (mapLookup url newEnds).isSome = true := h (url, m) (List.mem_cons_self _ _)
    simp [removePhase, h1, removePhase_all_present newEnds rest c evs
      (fun p hp => h p (List.mem_cons_of_mem _ hp))]

/-- The reload diff loop over endpoints that all compare equal to their
running monitors: the service state and event list are untouched and the
accumulated newEndpoints map only copies entries of the live map. -/
theorem reloadLoop_idem :
    ∀ (eps : List Endpoint) (s : ServiceState)
      (n : List (String × EndpointMonitor)) (evs : List Event),
      (∀ e ∈ eps, e.enabled = true →
        ∃ m, mapLookup e.url s.endpoints = some m ∧ endpointConfigEqual m.endpoint e = true) →
      (∀ url m, mapLookup url n = some m → mapLookup url s.endpoints = some m) →
      ∃ n', reloadLoop eps s n evs = .ok (s, n', evs) ∧
        (∀ url m, mapLookup url n' = some m → mapLookup url s.endpoints = some m) ∧
        (∀ url, (mapLookup url n).isSome = true → (mapLookup url n').isSome = true) ∧
        (∀ e ∈ eps, e.enabled = true → (mapLookup e.url n').isSome = true)
  | [], s, n, evs, _, hagree => ⟨n, rfl, hagree, fun _ h => h, by simp⟩
  | e :: rest, s, n, evs, hmatch, hagree => by
    by_cases he : e.enabled = true
    · obtain ⟨m, hm, heq⟩ := hmatch e (List.mem_cons_self _ _) he
      have hproc := processEndpoint_unchanged e s n evs m he hm heq
      have hagree2 : ∀ url m', mapLookup url (mapInsert e.url m n) = some m' →
          mapLookup url s.endpoints = some m' := by
        intro url m' h
        rw [mapLookup_mapInsert] at h
        by_cases hu : e.url = url
        · subst hu
          rw [if_pos rfl] at h
          cases h
          exact hm
        · rw [if_neg hu] at h
          exact hagree url m' h
      obtain ⟨n', hrl, ha, hmono, hall⟩ :=
        reloadLoop_idem rest s (mapInsert e.url m n) evs
          (fun e' he' hen => hmatch e' (List.mem_cons_of_mem _ he') hen) hagree2
      refine ⟨n', ?_, ha, ?_, ?_⟩
      · simp [reloadLoop, hproc, hrl]
      · intro url h
        apply hmono
        rw [mapLookup_mapInsert]
        by_cases hu : e.url = url
        · simp [hu]
        · simpa [hu] using h
      · intro e' he' hen
        rcases List.mem_cons.1 he' with h' | h'
        · subst h'
          apply hmono
          rw [mapLookup_mapInsert, if_pos rfl]
          rfl
        · exact hall e' h' hen
    · have he' : e.enabled = false := by simpa using he
      have hproc := processEndpoint_disabled e s n evs he'
      obtain ⟨n', hrl, ha, hmono, hall⟩ :=
        reloadLoop_idem rest s n evs
          (fun e' hh hen => hmatch e' (List.mem_cons_of_mem _ hh) hen) hagree
      refine ⟨n', ?_, ha, hmono, ?_⟩
      · simp [reloadLoop, hproc, hrl]
      · intro e' hh hen
        rcases List.mem_cons.1 hh with h' | h'
        · subst h'
          rw [hen] at he'
          cases he'
        · exact hall e' h' hen

/-- Rebuilding a state with equal structural components preserves InvCore. -/
theorem invCore_of_eq (base : Nat) (s t : ServiceState) (h : InvCore base s)
    (he : t.endpoints = s.endpoints) (hn : t.nextScope = s.nextScope)
    (hc : t.cancelled = s.cancelled) (hl : t.loops = s.loops) : InvCore base t := by
  refine ⟨h.base_pos, ?_, ?_, ?_, ?_, ?_, ?_, ?_, ?_, ?_, ?_, ?_, ?_⟩
  · rw [hn]; exact h.next_ge
  · rw [hc]; exact h.canc_lb
  · rw [hc, hn]; exact h.canc_ub
  · rw [he, hc]; exact h.mon_live
  · rw [he]; exact h.mon_lb
  · rw [he, hn]; exact h.mon_ub
  · rw [he]; exact h.mon_anc
  · rw [he]; exact h.mon_inj
  · rw [hl, hn]; exact h.loop_ub
  · rw [hl, hc, he]; exact h.loop_live_scope
  · intro url m hm
    rw [he] at hm
    have h1 := h.loop_one url m hm
    simp only [liveLoops] at h1 ⊢
    rw [hl, hc]
    exact h1
  · rw [he]; exact h.keys_nodup

/-- A freshly allocated child of a pre-base parent is live. -/
theorem newScope_live (base : Nat) (s : ServiceState) (h : InvCore base s)
    (parent : Ctx) (hpar : parentOk base parent) :
    scopeCancelled s.cancelled (withCancel parent s.nextScope) = false := by
  rw [scopeCancelled_eq_false_iff]
  constructor
  · exact fun hc => absurd (h.canc_ub _ hc) (lt_irrefl _)
  · intro a ha hc
    simp only [withCancel] at ha
    have hb := h.canc_lb _ hc
    have hlt : a < base := by
      rcases List.mem_cons.1 ha with h' | h'
      · rw [h']; exact hpar.1
      · exact hpar.2 a h'
    exact absurd hb (not_le.2 hlt)

/-- A live monitor stays live when ids of other monitors are cancelled. -/
theorem monitor_live_extend (base : Nat) (s : ServiceState) (h : InvCore base s)
    (url : String) (m : EndpointMonitor) (hm : mapLookup url s.endpoints = some m)
    (newIds : List Nat)
    (hne : ∀ x ∈ newIds, x ≠ m.scope.id ∧ base ≤ x) :
    scopeCancelled (s.cancelled ++ newIds) m.scope = false := by
  have hl := h.mon_live url m hm
  rw [scopeCancelled_eq_false_iff] at hl ⊢
  constructor
  · intro hc
    rcases List.mem_append.1 hc with h' | h'
    · exact hl.1 h'
    · exact (hne _ h').1 rfl
  · intro a ha hc
    rcases List.mem_append.1 hc with h' | h'
    · exact hl.2 a ha h'
    · exact absurd (hne _ h').2 (not_le.2 (h.mon_anc url m hm a ha))

/-- Inserting a fresh monitor for a URL with no current entry (the
startEndpoint effect) preserves the structural invariant, for any parent
scope predating the service's own allocations. -/
theorem fresh_insert_inv (base : Nat) (parent : Ctx) (e : Endpoint) (s : ServiceState)
    (hinv : InvCore base s) (hpar : parentOk base parent)
    (hfresh : mapLookup e.url s.endpoints = none) :
    InvCore base { s with
      endpoints := mapInsert e.url ⟨e, withCancel parent s.nextScope⟩ s.endpoints,
      nextScope := s.nextScope + 1,
      workers := s.workers + 1,
      loops := s.loops ++ [⟨withCancel parent s.nextScope, e.url⟩] } := by
  have hlook : ∀ url,
      mapLookup url (mapInsert e.url ⟨e, withCancel parent s.nextScope⟩ s.endpoints) =
      if e.url = url then some ⟨e, withCancel parent s.nextScope⟩
      else mapLookup url s.endpoints :=
    fun url => mapLookup_mapInsert e.url url _ s.endpoints
  refine ⟨hinv.base_pos, ?_, ?_, ?_, ?_, ?_, ?_, ?_, ?_, ?_, ?_, ?_, ?_⟩
  · exact Nat.le_succ_of_le hinv.next_ge
  · exact hinv.canc_lb
  · exact fun c hc => Nat.lt_succ_of_lt (hinv.canc_ub c hc)
  · intro url m hm
    rw [hlook] at hm
    by_cases hu : e.url = url
    · rw [if_pos hu] at hm
      cases hm
      exact newScope_live base s hinv parent hpar
    · rw [if_neg hu] at hm
      exact hinv.mon_live url m hm
  · intro url m hm
    rw [hlook] at hm
    by_cases hu : e.url = url
    · rw [if_pos hu] at hm
      cases hm
      exact hinv.next_ge
    · rw [if_neg hu] at hm
      exact hinv.mon_lb url m hm
  · intro url m hm
    rw [hlook] at hm
    by_cases hu : e.url = url
    · rw [if_pos hu] at hm
      cases hm
      exact Nat.lt_succ_self _
    · rw [if_neg hu] at hm
      exact Nat.lt_succ_of_lt (hinv.mon_ub url m hm)
  · intro url m hm a ha
    rw [hlook] at hm
    by_cases hu : e.url = url
    · rw [if_pos hu] at hm
      cases hm
      simp only [withCancel] at ha
      rcases List.mem_cons.1 ha with h' | h'
      · rw [h']; exact hpar.1
      · exact hpar.2 a h'
    · rw [if_neg hu] at hm
      exact hinv.mon_anc url m hm a ha
  · intro url1 m1 url2 m2 h1 h2 hid
    rw [hlook] at h1 h2
    by_cases hu1 : e.url = url1 <;> by_cases hu2 : e.url = url2
    · rw [← hu1, ← hu2]
    · rw [if_pos hu1] at h1
      rw [if_neg hu2] at h2
      cases h1
      exact absurd (hid ▸ hinv.mon_ub url2 m2 h2) (lt_irrefl _)
    · rw [if_neg hu1] at h1
      rw [if_pos hu2] at h2
      cases h2
      exact absurd (hid ▸ hinv.mon_ub url1 m1 h1) (lt_irrefl _)
    · rw [if_neg hu1] at h1
      rw [if_neg hu2] at h2
      exact hinv.mon_inj url1 m1 url2 m2 h1 h2 hid
  · intro l hl
    rcases List.mem_append.1 hl with h' | h'
    · exact Nat.lt_succ_of_lt (hinv.loop_ub l h')
    · rw [List.mem_singleton.1 h']
      exact Nat.lt_succ_self _
  · intro l hl hlive
    rcases List.mem_append.1 hl with h' | h'
    · obtain ⟨m2, hm2, hsc⟩ := hinv.loop_live_scope l h' hlive
      have hu : e.url ≠ l.url := by
        intro hu
        rw [hu, hm2] at hfresh
        cases hfresh
      exact ⟨m2, by rw [hlook, if_neg hu]; exact hm2, hsc⟩
    · rw [List.mem_singleton.1 h']
      exact ⟨⟨e, withCancel parent s.nextScope⟩, by rw [hlook, if_pos rfl], rfl⟩
  · intro url m hm
    rw [hlook] at hm
    simp only [liveLoops, List.filter_append, List.length_append]
    by_cases hu : e.url = url
    · rw [if_pos hu] at hm
      cases hm
      have hold : s.loops.filter
          (fun l => l.url == url && !scopeCancelled s.cancelled l.scope) = [] := by
        rw [List.filter_eq_nil_iff]
        intro l hl hp
        simp only [Bool.and_eq_true, beq_iff_eq, Bool.not_eq_true'] at hp
        obtain ⟨m2, hm2, _⟩ := hinv.loop_live_scope l hl hp.2
        rw [hp.1, ← hu, hfresh] at hm2
        cases hm2
      have hnew : List.filter
          (fun l => l.url == url && !scopeCancelled s.cancelled l.scope)
          [(⟨withCancel parent s.nextScope, e.url⟩ : LoopRec)] =
          [⟨withCancel parent s.nextScope, e.url⟩] := by
        simp [List.filter, hu, newScope_live base s hinv parent hpar]
      rw [hold, hnew]
      rfl
    · rw [if_neg hu] at hm
      have hb : (e.url == url) = false := by simp [hu]
      have hnew : List.filter
          (fun l => l.url == url && !scopeCancelled s.cancelled l.scope)
          [(⟨withCancel parent s.nextScope, e.url⟩ : LoopRec)] = [] := by
        simp [List.filter, hb]
      rw [hnew]
      have h1 := hinv.loop_one url m hm
      simp only [liveLoops] at h1
      simp [h1]
  · exact mapInsert_keys_nodup e.url _ s.endpoints hinv.keys_nodup

/-- A freshly allocated child of a pre-base parent is live even after
cancelling ids of existing monitors. -/
theorem newScope_live_extend (base : Nat) (s : ServiceState) (h : InvCore base s)
    (parent : Ctx) (hpar : parentOk base parent) (newIds : List Nat)
    (hids : ∀ x ∈ newIds, base ≤ x ∧ x < s.nextScope) :
    scopeCancelled (s.cancelled ++ newIds) (withCancel parent s.nextScope) = false := by
  rw [scopeCancelled_eq_false_iff]
  constructor
  · intro hc
    rcases List.mem_append.1 hc with h' | h'
    · exact absurd (h.canc_ub _ h') (lt_irrefl _)
    · exact absurd (hids _ h').2 (lt_irrefl _)
  · intro a ha hc
    simp only [withCancel] at ha
    have hlt : a < base := by
      rcases List.mem_cons.1 ha with h' | h'
      · rw [h']; exact hpar.1
      · exact hpar.2 a h'
    rcases List.mem_append.1 hc with h' | h'
    · exact absurd (h.canc_lb _ h') (not_le.2 hlt)
    · exact absurd (hids _ h').1 (not_le.2 hlt)

/-- The reload restart effect — cancel the running monitor's scope, then
insert a fresh monitor under the same URL — preserves the structural
invariant. -/
theorem restart_insert_inv (base : Nat) (e : Endpoint) (s : ServiceState)
    (m : EndpointMonitor) (hinv : InvCore base s)
    (hm : mapLookup e.url s.endpoints = some m) :
    InvCore base { s with
      endpoints := mapInsert e.url ⟨e, withCancel background s.nextScope⟩ s.endpoints,
      cancelled := s.cancelled ++ [m.scope.id],
      nextScope := s.nextScope + 1,
      workers := s.workers + 1,
      loops := s.loops ++ [⟨withCancel background s.nextScope, e.url⟩] } := by
  have hpar : parentOk base background := ⟨hinv.base_pos, by simp [background]⟩
  have hmlb := hinv.mon_lb e.url m hm
  have hmub := hinv.mon_ub e.url m hm
  have hids : ∀ x ∈ [m.scope.id], base ≤ x ∧ x < s.nextScope := by
    intro x hx
    rw [List.mem_singleton.1 hx]
    exact ⟨hmlb, hmub⟩
  have hsub : ∀ x ∈ s.cancelled, x ∈ s.cancelled ++ [m.scope.id] :=
    fun x hx => List.mem_append_left _ hx
  have hlook : ∀ url,
      mapLookup url (mapInsert e.url ⟨e, withCancel background s.nextScope⟩ s.endpoints) =
      if e.url = url then some ⟨e, withCancel background s.nextScope⟩
      else mapLookup url s.endpoints :=
    fun url => mapLookup_mapInsert e.url url _ s.endpoints
  have hlivext : ∀ url2 m2, mapLookup url2 s.endpoints = some m2 → e.url ≠ url2 →
      scopeCancelled (s.cancelled ++ [m.scope.id]) m2.scope = false := by
    intro url2 m2 h2 hu
    refine monitor_live_extend base s hinv url2 m2 h2 [m.scope.id] ?_
    intro x hx
    rw [List.mem_singleton.1 hx]
    exact ⟨fun hEq => hu (hinv.mon_inj e.url m url2 m2 hm h2 hEq), hmlb⟩
  have hnewlive : scopeCancelled (s.cancelled ++ [m.scope.id])
      (withCancel background s.nextScope) = false :=
    newScope_live_extend base s hinv background hpar [m.scope.id] hids
  refine ⟨hinv.base_pos, Nat.le_succ_of_le hinv.next_ge, ?_, ?_, ?_, ?_, ?_, ?_, ?_, ?_, ?_, ?_, ?_⟩
  · intro c hc
    rcases List.mem_append.1 hc with h' | h'
    · exact hinv.canc_lb c h'
    · rw [List.mem_singleton.1 h']; exact hmlb
  · intro c hc
    rcases List.mem_append.1 hc with h' | h'
    · exact Nat.lt_succ_of_lt (hinv.canc_ub c h')
    · rw [List.mem_singleton.1 h']; exact Nat.lt_succ_of_lt hmub
  · intro url m' hm'
    rw [hlook] at hm'
    by_cases hu : e.url = url
    · rw [if_pos hu] at hm'
      cases hm'
      exact hnewlive
    · rw [if_neg hu] at hm'
      exact hlivext url m' hm' hu
  · intro url m' hm'
    rw [hlook] at hm'
    by_cases hu : e.url = url
    · rw [if_pos hu] at hm'; cases hm'; exact hinv.next_ge
    · rw [if_neg hu] at hm'; exact hinv.mon_lb url m' hm'
  · intro url m' hm'
    rw [hlook] at hm'
    by_cases hu : e.url = url
    · rw [if_pos hu] at hm'; cases hm'; exact Nat.lt_succ_self _
    · rw [if_neg hu] at hm'; exact Nat.lt_succ_of_lt (hinv.mon_ub url m' hm')
  · intro url m' hm' a ha
    rw [hlook] at hm'
    by_cases hu : e.url = url
    · rw [if_pos hu] at hm'
      cases hm'
      simp only [withCancel] at ha
      rcases List.mem_cons.1 ha with h' | h'
      · rw [h']; exact hpar.1
      · exact hpar.2 a h'
    · rw [if_neg hu] at hm'
      exact hinv.mon_anc url m' hm' a ha
  · intro url1 m1 url2 m2 h1 h2 hid
    rw [hlook] at h1 h2
    by_cases hu1 : e.url = url1 <;> by_cases hu2 : e.url = url2
    · rw [← hu1, ← hu2]
    · rw [if_pos hu1] at h1
      rw [if_neg hu2] at h2
      cases h1
      exact absurd (hid ▸ hinv.mon_ub url2 m2 h2) (lt_irrefl _)
    · rw [if_neg hu1] at h1
      rw [if_pos hu2] at h2
      cases h2
      exact absurd (hid ▸ hinv.mon_ub url1 m1 h1) (lt_irrefl _)
    · rw [if_neg hu1] at h1
      rw [if_neg hu2] at h2
      exact hinv.mon_inj url1 m1 url2 m2 h1 h2 hid
  · intro l hl
    rcases List.mem_append.1 hl with h' | h'
    · exact Nat.lt_succ_of_lt (hinv.loop_ub l h')
    · rw [List.mem_singleton.1 h']
      exact Nat.lt_succ_self _
  · intro l hl hlive
    rcases List.mem_append.1 hl with h' | h'
    · have hliveC : scopeCancelled s.cancelled l.scope = false :=
        scopeCancelled_anti l.scope s.cancelled (s.cancelled ++ [m.scope.id]) hsub hlive
      obtain ⟨m2, hm2, hsc⟩ := hinv.loop_live_scope l h' hliveC
      by_cases hu : e.url = l.url
      · rw [← hu, hm] at hm2
        cases hm2
        exfalso
        have hdead : scopeCancelled (s.cancelled ++ [m.scope.id]) l.scope = true := by
          rw [scopeCancelled_iff]
          exact Or.inl (by
            rw [hsc]
            exact List.mem_append_right _ (List.mem_singleton.2 rfl))
        rw [hdead] at hlive
        cases hlive
      · exact ⟨m2, by rw [hlook, if_neg hu]; exact hm2, hsc⟩
    · rw [List.mem_singleton.1 h']
      exact ⟨⟨e, withCancel background s.nextScope⟩, by rw [hlook, if_pos rfl], rfl⟩
  · intro url m' hm'
    rw [hlook] at hm'
    simp only [liveLoops, List.filter_append, List.length_append]
    by_cases hu : e.url = url
    · rw [if_pos hu] at hm'
      cases hm'
      have hold : s.loops.filter
          (fun l => l.url == url && !scopeCancelled (s.cancelled ++ [m.scope.id]) l.scope)
          = [] := by
        rw [List.filter_eq_nil_iff]
        intro l hl hp
        simp only [Bool.and_eq_true, beq_iff_eq, Bool.not_eq_true'] at hp
        have hliveC : scopeCancelled s.cancelled l.scope = false :=
          scopeCancelled_anti _ _ _ hsub hp.2
        obtain ⟨m2, hm2, hsc⟩ := hinv.loop_live_scope l hl hliveC
        rw [hp.1, ← hu, hm] at hm2
        cases hm2
        have hdead : scopeCancelled (s.cancelled ++ [m.scope.id]) l.scope = true := by
          rw [scopeCancelled_iff]
          exact Or.inl (by
            rw [hsc]
            exact List.mem_append_right _ (List.mem_singleton.2 rfl))
        rw [hp.2] at hdead
        cases hdead
      have hb : (e.url == url) = true := by simp [hu]
      have hnew : List.filter
          (fun l => l.url == url && !scopeCancelled (s.cancelled ++ [m.scope.id]) l.scope)
          [(⟨withCancel background s.nextScope, e.url⟩ : LoopRec)] =
          [⟨withCancel background s.nextScope, e.url⟩] := by
        simp [List.filter, hb, hnewlive]
      rw [hold, hnew]
      rfl
    · rw [if_neg hu] at hm'
      have hb : (e.url == url) = false := by simp [hu]
      have hnew : List.filter
          (fun l => l.url == url && !scopeCancelled (s.cancelled ++ [m.scope.id]) l.scope)
          [(⟨withCancel background s.nextScope, e.url⟩ : LoopRec)] = [] := by
        simp [List.filter, hb]
      rw [hnew]
      have hcongr : s.loops.filter
          (fun l => l.url == url && !scopeCancelled (s.cancelled ++ [m.scope.id]) l.scope)
          = s.loops.filter (fun l => l.url == url && !scopeCancelled s.cancelled l.scope) := by
        apply List.filter_congr
        intro l hl
        by_cases hlu : l.url = url
        · have hbu : (l.url == url) = true := by simp [hlu]
          by_cases hdead : scopeCancelled s.cancelled l.scope = true
          · have hdead' : scopeCancelled (s.cancelled ++ [m.scope.id]) l.scope = true :=
              scopeCancelled_mono _ _ _ hsub hdead
            simp [hbu, hdead, hdead']
          · have hliveC : scopeCancelled s.cancelled l.scope = false := by
              simpa using hdead
            obtain ⟨m2, hm2, hsc⟩ := hinv.loop_live_scope l hl hliveC
            rw [hlu, hm'] at hm2
            cases hm2
            have hliveC' : scopeCancelled (s.cancelled ++ [m.scope.id]) l.scope = false := by
              rw [hsc]
              exact hlivext url m' hm' hu
            simp [hbu, hliveC, hliveC']
        · have hbu : (l.url == url) = false := by simp [hlu]
          simp [hbu]
      rw [hcongr]
      have h1 := hinv.loop_one url m' hm'
      simp only [liveLoops] at h1
      simp [h1]
  · exact mapInsert_keys_nodup e.url _ s.endpoints hinv.keys_nodup

/-- Extending the cancel set with ids of other monitors does not change the
live loops of a URL that keeps its monitor. -/
theorem liveLoops_extend_congr (base : Nat) (s : ServiceState) (hinv : InvCore base s)
    (url : String) (m : EndpointMonitor) (hm : mapLookup url s.endpoints = some m)
    (newIds : List Nat) (hrange : ∀ x ∈ newIds, base ≤ x)
    (hne : ∀ x ∈ newIds, x ≠ m.scope.id) :
    s.loops.filter (fun l => l.url == url && !scopeCancelled (s.cancelled ++ newIds) l.scope)
      = s.loops.filter (fun l => l.url == url && !scopeCancelled s.cancelled l.scope) := by
  apply List.filter_congr
  intro l hl
  by_cases hlu : l.url = url
  · have hbu : (l.url == url) = true := by simp [hlu]
    by_cases hdead : scopeCancelled s.cancelled l.scope = true
    · have hdead' : scopeCancelled (s.cancelled ++ newIds) l.scope = true :=
        scopeCancelled_mono l.scope s.cancelled (s.cancelled ++ newIds)
          (fun x hx => List.mem_append_left _ hx) hdead
      simp [hbu, hdead, hdead']
    · have hliveC : scopeCancelled s.cancelled l.scope = false := by simpa using hdead
      obtain ⟨m2, hm2, hsc⟩ := hinv.loop_live_scope l hl hliveC
      rw [hlu, hm] at hm2
      cases hm2
      have hliveC' : scopeCancelled (s.cancelled ++ newIds) l.scope = false := by
        rw [hsc]
        exact monitor_live_extend base s hinv url m hm newIds
          (fun x hx => ⟨hne x hx, hrange x hx⟩)
      simp [hbu, hliveC, hliveC']
  · have hbu : (l.url == url) = false := by simp [hlu]
    simp [hbu]

/-- One step of the reload diff loop preserves the loop invariant and grows
the domain of newEndpoints by the endpoint's URL when it is enabled. -/
theorem processEndpoint_loopInv (base : Nat) (e : Endpoint) (s : ServiceState)
    (n : List (String × EndpointMonitor)) (evs : List Event)
    (r : ServiceState × List (String × EndpointMonitor) × List Event)
    (hli : LoopInv base s n) (hproc : processEndpoint e s n evs = .ok r) :
    LoopInv base r.1 r.2.1 ∧
    (∀ url, (mapLookup url r.2.1).isSome = true ↔
      (mapLookup url n).isSome = true ∨ (e.enabled = true ∧ url = e.url)) := by
  by_cases he : e.enabled = true
  · cases hml : mapLookup e.url s.endpoints with
    | some m =>
      by_cases heq : endpointConfigEqual m.endpoint e = true
      · rw [processEndpoint_unchanged e s n evs m he hml heq] at hproc
        cases hproc
        refine ⟨⟨hli.core, ?_, mapInsert_keys_nodup _ _ _ hli.n_nodup⟩, ?_⟩
        · intro url m' h
          rw [mapLookup_mapInsert] at h
          by_cases hu : e.url = url
          · rw [if_pos hu] at h
            cases h
            rw [← hu]
            exact hml
          · rw [if_neg hu] at h
            exact hli.agree url m' h
        · intro url
          rw [mapLookup_mapInsert]
          by_cases hu : e.url = url
          · simp [hu, he]
          · have hu' : ¬(url = e.url) := fun h' => hu h'.symm
            simp [hu, hu']
      · have heq' : endpointConfigEqual m.endpoint e = false := by simpa using heq
        rw [processEndpoint_changed e s n evs m he hml heq'] at hproc
        cases hproc
        refine ⟨⟨restart_insert_inv base e s m hli.core hml, ?_,
            mapInsert_keys_nodup _ _ _ hli.n_nodup⟩, ?_⟩
        · intro url m' h
          rw [mapLookup_mapInsert] at h
          rw [mapLookup_mapInsert]
          by_cases hu : e.url = url
          · rw [if_pos hu] at h
            rw [if_pos hu]
            exact h
          · rw [if_neg hu] at h
            rw [if_neg hu]
            exact hli.agree url m' h
        · intro url
          rw [mapLookup_mapInsert]
          by_cases hu : e.url = url
          · simp [hu, he]
          · have hu' : ¬(url = e.url) := fun h' => hu h'.symm
            simp [hu, hu']
    | none =>
      rw [processEndpoint_new e s n evs he hml] at hproc
      cases hproc
      have hpar : parentOk base background := ⟨hli.core.base_pos, by simp [background]⟩
      refine ⟨⟨fresh_insert_inv base background e s hli.core hpar hml, ?_,
          mapInsert_keys_nodup _ _ _ hli.n_nodup⟩, ?_⟩
      · intro url m' h
        rw [mapLookup_mapInsert] at h
        rw [mapLookup_mapInsert]
        by_cases hu : e.url = url
        · rw [if_pos hu] at h
          rw [if_pos hu]
          exact h
        · rw [if_neg hu] at h
          rw [if_neg hu]
          exact hli.agree url m' h
      · intro url
        rw [mapLookup_mapInsert]
        by_cases hu : e.url = url
        · simp [hu, he]
        · have hu' : ¬(url = e.url) := fun h' => hu h'.symm
          simp [hu, hu']
  · have he' : e.enabled = false := by simpa using he
    rw [processEndpoint_disabled e s n evs he'] at hproc
    cases hproc
    exact ⟨hli, by simp [he']⟩

/-- The reload diff loop preserves the loop invariant; afterwards the
domain of newEndpoints is the initial domain plus the enabled URLs. -/
theorem reloadLoop_loopInv (base : Nat) :
    ∀ (eps : List Endpoint) (s : ServiceState) (n : List (String × EndpointMonitor))
      (evs : List Event) (s2 : ServiceState) (n2 : List (String × EndpointMonitor))
      (evs2 : List Event),
      LoopInv base s n →
      reloadLoop eps s n evs = .ok (s2, n2, evs2) →
      LoopInv base s2 n2 ∧
      (∀ url, (mapLookup url n2).isSome = true ↔
        (mapLookup url n).isSome = true ∨ ∃ e ∈ eps, e.enabled = true ∧ url = e.url)
  | [], s, n, evs, s2, n2, evs2, hli, h => by
    cases h
    exact ⟨hli, by simp⟩
  | e :: rest, s, n, evs, s2, n2, evs2, hli, h => by
    cases hp : processEndpoint e s n evs with
    | error err =>
      simp only [reloadLoop] at h
      rw [hp] at h
      cases h
    | ok r =>
      obtain ⟨s', n', evs'⟩ := r
      simp only [reloadLoop] at h
      rw [hp] at h
      obtain ⟨hli', hdom'⟩ := processEndpoint_loopInv base e s n evs (s', n', evs') hli hp
      obtain ⟨hli2, hdom2⟩ := reloadLoop_loopInv base rest s' n' evs' s2 n2 evs2 hli' h
      refine ⟨hli2, ?_⟩
      intro url
      rw [hdom2 url, hdom' url]
      constructor
      · rintro ((h1 | h2) | h3)
        · exact Or.inl h1
        · exact Or.inr ⟨e, List.mem_cons_self _ _, h2.1, h2.2⟩
        · obtain ⟨e', he', hen, hurl⟩ := h3
          exact Or.inr ⟨e', List.mem_cons_of_mem _ he', hen, hurl⟩
      · rintro (h1 | ⟨e', he', hen, hurl⟩)
        · exact Or.inl (Or.inl h1)
        · rcases List.mem_cons.1 he' with h' | h'
          · subst h'
            exact Or.inl (Or.inr ⟨hen, hurl⟩)
          · exact Or.inr ⟨e', h', hen, hurl⟩

/-- Closed form of the cancel set produced by the removal phase. -/
theorem removePhase_spec (newEnds : List (String × EndpointMonitor)) :
    ∀ (olds : List (String × EndpointMonitor)) (cancelled : List Nat) (evs : List Event),
      (removePhase newEnds olds cancelled evs).1 =
        cancelled ++ (olds.filter (fun p => !(mapLookup p.1 newEnds).isSome)).map
          (fun p => p.2.scope.id)
  | [], c, evs => by simp [removePhase]
  | (url, m) :: rest, c, evs => by
    by_cases h : (mapLookup url newEnds).isSome = true
    · rw [show removePhase newEnds ((url, m) :: rest) c evs
          = removePhase newEnds rest c evs from by simp [removePhase, h]]
      rw [removePhase_spec newEnds rest c evs]
      congr 1
      rw [List.filter_cons]
      simp [h]
    · have h' : (mapLookup url newEnds).isSome = false := by simpa using h
      rw [show removePhase newEnds ((url, m) :: rest) c evs
          = removePhase newEnds rest (c ++ [m.scope.id])
              (evs ++ [.cancelledScope m.scope.id]) from by simp [removePhase, h']]
      rw [removePhase_spec newEnds rest (c ++ [m.scope.id])
        (evs ++ [Event.cancelledScope m.scope.id])]
      rw [List.filter_cons]
      simp [h', List.append_assoc]

/-- Membership in the enabled-URL list. -/
theorem mem_enabledUrls (cfg : MonitorConfig) (url : String) :
    url ∈ enabledUrls cfg ↔ ∃ e ∈ cfg.endpoints, e.enabled = true ∧ url = e.url := by
  constructor
  · intro h
    obtain ⟨e, he, hurl⟩ := List.mem_map.1 h
    obtain ⟨hin, hen⟩ := List.mem_filter.1 he
    exact ⟨e, hin, hen, hurl.symm⟩
  · rintro ⟨e, hin, hen, hurl⟩
    exact List.mem_map.2 ⟨e, List.mem_filter.2 ⟨hin, hen⟩, hurl.symm⟩

/-- A successful reconciliation preserves the full service-state invariant,
re-establishing the key-set property against the newly installed
configuration. -/
theorem reload_inv (base : Nat) (cfg : Config) (s s' : ServiceState) (evs : List Event)
    (hinv : Inv base s) (h : reloadConfig (.ok cfg) s = .ok (s', evs)) : Inv base s' := by
  obtain ⟨hcore, _⟩ := hinv
  cases hrl : reloadLoop cfg.monitor.endpoints s [] [] with
  | error err =>
    simp only [reloadConfig] at h
    rw [hrl] at h
    cases h
  | ok t =>
    obtain ⟨s2, n2, evs2⟩ := t
    simp only [reloadConfig] at h
    rw [hrl] at h
    have hli0 : LoopInv base s [] :=
      ⟨hcore, by intro url m hm; simp [mapLookup] at hm, by simp⟩
    obtain ⟨hli2, hdom⟩ :=
      reloadLoop_loopInv base cfg.monitor.endpoints s [] [] s2 n2 evs2 hli0 hrl
    have hC := hli2.core
    cases h
    rw [removePhase_spec n2 s2.endpoints s2.cancelled evs2]
    have hmem_s2 : ∀ p ∈ s2.endpoints, mapLookup p.1 s2.endpoints = some p.2 := by
      intro p hp
      exact mapLookup_eq_of_mem_nodup p.1 p.2 s2.endpoints hC.keys_nodup hp
    have hridm : ∀ x ∈ (s2.endpoints.filter
        (fun p => !(mapLookup p.1 n2).isSome)).map (fun p => p.2.scope.id),
        ∃ p, p ∈ s2.endpoints ∧ x = p.2.scope.id ∧ mapLookup p.1 n2 = none := by
      intro x hx
      obtain ⟨p, hpf, hpx⟩ := List.mem_map.1 hx
      obtain ⟨hpin, hpred⟩ := List.mem_filter.1 hpf
      rw [Bool.not_eq_true'] at hpred
      exact ⟨p, hpin, hpx.symm, Option.not_isSome_iff_eq_none.1 (by simp [hpred])⟩
    have hrid_lb : ∀ x ∈ (s2.endpoints.filter
        (fun p => !(mapLookup p.1 n2).isSome)).map (fun p => p.2.scope.id), base ≤ x := by
      intro x hx
      obtain ⟨p, hpin, hxe, _⟩ := hridm x hx
      rw [hxe]
      exact hC.mon_lb p.1 p.2 (hmem_s2 p hpin)
    have hrid_ub : ∀ x ∈ (s2.endpoints.filter
        (fun p => !(mapLookup p.1 n2).isSome)).map (fun p => p.2.scope.id),
        x < s2.nextScope := by
      intro x hx
      obtain ⟨p, hpin, hxe, _⟩ := hridm x hx
      rw [hxe]
      exact hC.mon_ub p.1 p.2 (hmem_s2 p hpin)
    have hrid_ne : ∀ url m, mapLookup url n2 = some m →
        ∀ x ∈ (s2.endpoints.filter
          (fun p => !(mapLookup p.1 n2).isSome)).map (fun p => p.2.scope.id),
        x ≠ m.scope.id := by
      intro url m hm x hx hEq
      obtain ⟨p, hpin, hxe, hpnone⟩ := hridm x hx
      have hs2 : mapLookup url s2.endpoints = some m := hli2.agree url m hm
      have hps2 : mapLookup p.1 s2.endpoints = some p.2 := hmem_s2 p hpin
      have hpu : p.1 = url := hC.mon_inj p.1 p.2 url m hps2 hs2 (hxe ▸ hEq)
      rw [hpu, hm] at hpnone
      cases hpnone
    have hsub : ∀ x ∈ s2.cancelled, x ∈ s2.cancelled ++ (s2.endpoints.filter
        (fun p => !(mapLookup p.1 n2).isSome)).map (fun p => p.2.scope.id) :=
      fun x hx => List.mem_append_left _ hx
    refine ⟨⟨hC.base_pos, hC.next_ge, ?_, ?_, ?_, ?_, ?_, ?_, ?_, ?_, ?_, ?_,
      hli2.n_nodup⟩, ?_⟩
    · intro c hc
      rcases List.mem_append.1 hc with h' | h'
      · exact hC.canc_lb c h'
      · exact hrid_lb c h'
    · intro c hc
      rcases List.mem_append.1 hc with h' | h'
      · exact hC.canc_ub c h'
      · exact hrid_ub c h'
    · intro url m hm
      exact monitor_live_extend base s2 hC url m (hli2.agree url m hm) _
        (fun x hx => ⟨hrid_ne url m hm x hx, hrid_lb x hx⟩)
    · intro url m hm
      exact hC.mon_lb url m (hli2.agree url m hm)
    · intro url m hm
      exact hC.mon_ub url m (hli2.agree url m hm)
    · intro url m hm
      exact hC.mon_anc url m (hli2.agree url m hm)
    · intro url1 m1 url2 m2 h1 h2 hid
      exact hC.mon_inj url1 m1 url2 m2 (hli2.agree url1 m1 h1) (hli2.agree url2 m2 h2) hid
    · exact hC.loop_ub
    · intro l hl hlive
      have hliveC : scopeCancelled s2.cancelled l.scope = false :=
        scopeCancelled_anti l.scope s2.cancelled _ hsub hlive
      obtain ⟨m2, hm2, hsc⟩ := hC.loop_live_scope l hl hliveC
      cases hn : mapLookup l.url n2 with
      | none =>
        exfalso
        have hmemrid : m2.scope.id ∈ (s2.endpoints.filter
            (fun p => !(mapLookup p.1 n2).isSome)).map (fun p => p.2.scope.id) :=
          List.mem_map.2 ⟨(l.url, m2),
            List.mem_filter.2 ⟨mem_of_mapLookup l.url m2 s2.endpoints hm2, by simp [hn]⟩,
            rfl⟩
        have hdead : scopeCancelled (s2.cancelled ++ (s2.endpoints.filter
            (fun p => !(mapLookup p.1 n2).isSome)).map (fun p => p.2.scope.id))
            l.scope = true := by
          rw [scopeCancelled_iff]
          exact Or.inl (by rw [hsc]; exact List.mem_append_right _ hmemrid)
        rw [hdead] at hlive
        cases hlive
      | some m3 =>
        have hs23 := hli2.agree l.url m3 hn
        rw [hm2] at hs23
        cases hs23
        exact ⟨m2, rfl, hsc⟩
    · intro url m hm
      have hs2 := hli2.agree url m hm
      simp only [liveLoops]
      rw [liveLoops_extend_congr base s2 hC url m hs2 _ hrid_lb (hrid_ne url m hm)]
      have h1 := hC.loop_one url m hs2
      simp only [liveLoops] at h1
      exact h1
    · intro url
      rw [hdom url, mem_enabledUrls]
      simp [mapLookup]

/-- The Start loop preserves the structural invariant when the enabled
endpoints it starts have distinct, not-yet-present URLs. -/
theorem startList_inv (base : Nat) (root : Ctx) (hpar : parentOk base root) :
    ∀ (eps : List Endpoint) (s s' : ServiceState),
      InvCore base s →
      (∀ e ∈ eps, e.enabled = true → mapLookup e.url s.endpoints = none) →
      ((eps.filter (fun e => e.enabled)).map (fun e => e.url)).Nodup →
      startList root eps s = .ok s' →
      InvCore base s' ∧
      (∀ url, (mapLookup url s'.endpoints).isSome = true ↔
        (mapLookup url s.endpoints).isSome = true ∨
        ∃ e ∈ eps, e.enabled = true ∧ url = e.url) ∧
      s'.config = s.config
  | [], s, s', hinv, _, _, h => by
    cases h
    exact ⟨hinv, by simp, rfl⟩
  | e :: rest, s, s', hinv, hfresh, hnd, h => by
    by_cases he : e.enabled = true
    · have hfr : mapLookup e.url s.endpoints = none := hfresh e (List.mem_cons_self _ _) he
      have hstep := fresh_insert_inv base root e s hinv hpar hfr
      simp only [startList, he, if_true, startEndpoint] at h
      have hnd' : ((rest.filter (fun e => e.enabled)).map (fun e => e.url)).Nodup ∧
          e.url ∉ (rest.filter (fun e => e.enabled)).map (fun e => e.url) := by
        have : (e :: rest).filter (fun e => e.enabled) = e :: rest.filter (fun e => e.enabled) := by
          simp [List.filter_cons, he]
        rw [this, List.map_cons] at hnd
        exact ⟨(List.nodup_cons.1 hnd).2, (List.nodup_cons.1 hnd).1⟩
      have hfresh' : ∀ e' ∈ rest, e'.enabled = true →
          mapLookup e'.url (mapInsert e.url ⟨e, withCancel root s.nextScope⟩ s.endpoints) = none := by
        intro e' he' hen
        have hne : e.url ≠ e'.url := by
          intro hEq
          exact hnd'.2 (hEq ▸ List.mem_map.2 ⟨e', List.mem_filter.2 ⟨he', hen⟩, rfl⟩)
        rw [mapLookup_mapInsert, if_neg hne]
        exact hfresh e' (List.mem_cons_of_mem _ he') hen
      obtain ⟨hinv', hdom, hcfg⟩ := startList_inv base root hpar rest _ s' hstep hfresh' hnd'.1 h
      refine ⟨hinv', ?_, hcfg⟩
      intro url
      rw [hdom url, mapLookup_mapInsert]
      by_cases hu : e.url = url
      · simp only [if_pos hu]
        constructor
        · intro _
          exact Or.inr ⟨e, List.mem_cons_self _ _, he, hu.symm⟩
        · intro _
          exact Or.inl (by simp)
      · simp only [if_neg hu]
        constructor
        · rintro (h1 | ⟨e', he', hen, hurl⟩)
          · exact Or.inl h1
          · exact Or.inr ⟨e', List.mem_cons_of_mem _ he', hen, hurl⟩
        · rintro (h1 | ⟨e', he', hen, hurl⟩)
          · exact Or.inl h1
          · rcases List.mem_cons.1 he' with h' | h'
            · subst h'
              exact absurd hurl.symm hu
            · exact Or.inr ⟨e', h', hen, hurl⟩
    · have he' : e.enabled = false := by simpa using he
      simp only [startList, he', Bool.false_eq_true, if_false] at h
      have hnd' : ((rest.filter (fun e => e.enabled)).map (fun e => e.url)).Nodup := by
        have : (e :: rest).filter (fun e => e.enabled) = rest.filter (fun e => e.enabled) := by
          simp [List.filter_cons, he']
        rw [this] at hnd
        exact hnd
      obtain ⟨hinv', hdom, hcfg⟩ := startList_inv base root hpar rest s s' hinv
        (fun e' hh hen => hfresh e' (List.mem_cons_of_mem _ hh) hen) hnd' h
      refine ⟨hinv', ?_, hcfg⟩
      intro url
      rw [hdom url]
      constructor
      · rintro (h1 | ⟨e', he'', hen, hurl⟩)
        · exact Or.inl h1
        · exact Or.inr ⟨e', List.mem_cons_of_mem _ he'', hen, hurl⟩
      · rintro (h1 | ⟨e', he'', hen, hurl⟩)
        · exact Or.inl h1
        · rcases List.mem_cons.1 he'' with h' | h'
          · subst h'
            rw [hen] at he'
            cases he'
          · exact Or.inr ⟨e', h', hen, hurl⟩

/-- Start on an initial state whose enabled URLs are pairwise distinct
establishes the full invariant. -/
theorem start_establishes_inv (base : Nat) (root : Ctx) (cfg : MonitorConfig)
    (s' : ServiceState) (hbase : 0 < base) (hpar : parentOk base root)
    (hnd : (enabledUrls cfg).Nodup)
    (h : start root (initState cfg base) = .ok s') : Inv base s' := by
  have hinv0 : InvCore base (initState cfg base) := by
    refine ⟨hbase, le_refl _, ?_, ?_, ?_, ?_, ?_, ?_, ?_, ?_, ?_, ?_, ?_⟩ <;>
      simp [initState, mapLookup, liveLoops]
  cases hsl : startList root (initState cfg base).config.endpoints (initState cfg base) with
  | error err =>
    simp only [start] at h
    rw [hsl] at h
    cases h
  | ok s0 =>
    simp only [start] at h
    rw [hsl] at h
    cases h
    obtain ⟨hinv1, hdom, hcfg⟩ := startList_inv base root hpar cfg.endpoints
      (initState cfg base) s0 hinv0 (fun e he hen => rfl) hnd hsl
    refine ⟨invCore_of_eq base s0 _ hinv1 rfl rfl rfl rfl, ?_⟩
    intro url
    have hc : ({ s0 with
        workers := s0.workers + 1,
        watchScope := some root } : ServiceState).config = cfg := hcfg
    rw [hdom url, hc, mem_enabledUrls]
    simp [initState, mapLookup]

/-- Every reachable state satisfies the full invariant. -/
theorem reachable_inv (base : Nat) (root : Ctx) (s : ServiceState)
    (hbase : 0 < base) (hpar : parentOk base root) (h : Reachable base root s) :
    Inv base s := by
  induction h with
  | init cfg s' hnd hstart =>
    exact start_establishes_inv base root cfg s' hbase hpar hnd hstart
  | step s0 cfg s' evs _ hrel ih =>
    exact reload_inv base cfg s0 s' evs ih hrel

/-- Every monitor the Start loop adds has a scope that is a direct child of
the root scope. -/
theorem startList_monitor_ancestors (root : Ctx) :
    ∀ (eps : List Endpoint) (s s' : ServiceState),
      startList root eps s = .ok s' →
      ∀ url m, mapLookup url s'.endpoints = some m →
        mapLookup url s.endpoints = some m ∨
        m.scope.ancestors = root.id :: root.ancestors
  | [], s, s', h => by
    cases h
    exact fun url m hm => Or.inl hm
  | e :: rest, s, s', h => by
    by_cases he : e.enabled = true
    · simp only [startList, he, if_true, startEndpoint] at h
      intro url m hm
      rcases startList_monitor_ancestors root rest _ s' h url m hm with h' | h'
      · rw [mapLookup_mapInsert] at h'
        by_cases hu : e.url = url
        · rw [if_pos hu] at h'
          cases h'
          exact Or.inr rfl
        · rw [if_neg hu] at h'
          exact Or.inl h'
      · exact Or.inr h'
    · have he' : e.enabled = false := by simpa using he
      simp only [startList, he', Bool.false_eq_true, if_false] at h
      exact fun url m hm => startList_monitor_ancestors root rest s s' h url m hm

/-- Service.Shutdown's state effect is the same on every drain outcome:
cancel every registered monitor's scope, touch nothing else. -/
theorem serviceShutdown_fst (s : ServiceState) (deadline : Int) (drainTime : Option Int) :
    (serviceShutdown s deadline drainTime).1 =
    { s with cancelled := s.cancelled ++ s.endpoints.map (fun p => p.2.scope.id) } := by
  cases drainTime with
  | none => rfl
  | some t => by_cases h : t < deadline <;> simp [serviceShutdown, h]

/-- In an invariant state, Shutdown leaves every map entry in place but
kills its polling loop: the live-loop count of every registered URL drops
to zero. -/
theorem shutdown_zero_live_loops (base : Nat) (s : ServiceState) (hinv : Inv base s)
    (url : String) (m : EndpointMonitor) (hm : mapLookup url s.endpoints = some m)
    (deadline : Int) (drainTime : Option Int) :
    mapLookup url (serviceShutdown s deadline drainTime).1.endpoints = some m ∧
    (liveLoops (serviceShutdown s deadline drainTime).1 url).length = 0 := by
  obtain ⟨hcore, _⟩ := hinv
  rw [serviceShutdown_fst]
  refine ⟨hm, ?_⟩
  have hnil : liveLoops { s with
      cancelled := s.cancelled ++ s.endpoints.map (fun p => p.2.scope.id) } url = [] := by
    simp only [liveLoops]
    rw [List.filter_eq_nil_iff]
    intro l hl hp
    simp only [Bool.and_eq_true, beq_iff_eq, Bool.not_eq_true'] at hp
    have hliveC : scopeCancelled s.cancelled l.scope = false :=
      scopeCancelled_anti l.scope s.cancelled _
        (fun x hx => List.mem_append_left _ hx) hp.2
    obtain ⟨m2, hm2, hsc⟩ := hcore.loop_live_scope l hl hliveC
    rw [hp.1, hm] at hm2
    cases hm2
    have hdead : scopeCancelled
        (s.cancelled ++ s.endpoints.map (fun p => p.2.scope.id)) l.scope = true := by
      rw [scopeCancelled_iff]
      refine Or.inl ?_
      rw [hsc]
      exact List.mem_append_right _
        (List.mem_map.2 ⟨(url, m), mem_of_mapLookup url m s.endpoints hm, rfl⟩)
    rw [hp.2] at hdead
    cases hdead
  rw [hnil]
  rfl

/-! ## Claim theorems -/

/-- C1: performHealthCheck classifies the single probe result exhaustively
and in order: a request failure gives status ERROR with the cause
description as the error message (non-empty whenever the cause description
is) and status code and response time left unset (Go zero values); a
response with code exactly 200 gives status UP with code 200 and the
elapsed milliseconds; a response with any other code gives status DEGRADED
with that code and the elapsed milliseconds. -/
theorem performHealthCheck_classification (endp : Endpoint) (now : Int)
    (msg : String) (code elapsedMs : Int) (hmsg : msg ≠ "") :
    ((performHealthCheck endp now (.failure msg)).status = "ERROR" ∧
     (performHealthCheck endp now (.failure msg)).error = msg ∧
     (performHealthCheck endp now (.failure msg)).error ≠ "" ∧
     (performHealthCheck endp now (.failure msg)).statusCode = 0 ∧
     (performHealthCheck endp now (.failure msg)).responseTime = 0) ∧
    (code = 200 →
     (performHealthCheck endp now (.response code elapsedMs)).status = "UP" ∧
     (performHealthCheck endp now (.response code elapsedMs)).statusCode = 200 ∧
     (performHealthCheck endp now (.response code elapsedMs)).responseTime = elapsedMs) ∧
    (code ≠ 200 →
     (performHealthCheck endp now (.response code elapsedMs)).status = "DEGRADED" ∧
     (performHealthCheck endp now (.response code elapsedMs)).statusCode = code ∧
     (performHealthCheck endp now (.response code elapsedMs)).responseTime = elapsedMs) := by
  refine ⟨⟨rfl, rfl, hmsg, rfl, rfl⟩, ?_, ?_⟩
  · intro h
    subst h
    exact ⟨rfl, rfl, rfl⟩
  · intro h
    have hb : (code == 200) = false := by simpa using h
    simp [performHealthCheck, hb]

/-- Witness for C1 at concrete inputs. -/
theorem performHealthCheck_classification_witness :
    (performHealthCheck Monitord.epA 0 (.failure "connection refused")).status = "ERROR" ∧
    (performHealthCheck Monitord.epA 0 (.response 200 5)).status = "UP" ∧
    (performHealthCheck Monitord.epA 0 (.response 503 5)).status = "DEGRADED" :=
  ⟨(performHealthCheck_classification epA 0 "connection refused" 200 5 (by decide)).1.1,
   ((performHealthCheck_classification epA 0 "connection refused" 200 5 (by decide)).2.1 rfl).1,
   ((performHealthCheck_classification epA 0 "connection refused" 503 5 (by decide)).2.2
      (by decide)).1⟩

/-- C2 (refutation at the failing input): after Start on a one-endpoint
configuration, Service.Shutdown cancels the endpoint monitor's scope but
leaves the configuration watcher's scope (the root context Start received)
uncancelled, contrary to the claimed shutdown sequence. -/
theorem shutdown_leaves_watch_scope_uncancelled :
    (runStartA.watchScope.map
       (fun c => scopeCancelled (serviceShutdown runStartA 30 none).1.cancelled c)
       = some false) ∧
    ((mapLookup "u" runStartA.endpoints).map
       (fun m => scopeCancelled (serviceShutdown runStartA 30 none).1.cancelled m.scope)
       = some true) := by decide

/-- C3 (counterexample): the monitor restarted by a reconciliation is not a
descendant of the root scope Start received (its scope is derived from
context.Background()), whereas the monitor created by Start is. -/
theorem reload_monitor_escapes_root_scope :
    ((mapLookup "u" runReloadFast.endpoints).map
       (fun m => isDescendantOf root0 m.scope) = some false) ∧
    ((mapLookup "u" runStartA.endpoints).map
       (fun m => isDescendantOf root0 m.scope) = some true) := by decide

/-- C4 (counterexample): reconciling with a configuration that changes only
an endpoint's description cancels nothing and starts nothing — the running
monitor, its scope, and its (stale) snapshot survive unchanged. -/
theorem description_change_does_not_restart :
    epANewDesc.description ≠ epA.description ∧
    endpointConfigEqual epA epANewDesc = true ∧
    (reloadConfig (.ok cfgANewDesc) runStartA).toOption =
      some ({ runStartA with config := cfgANewDesc.monitor }, []) := by decide

/-- C3 (amended): every monitor created by Start runs in a scope that is a
direct child of the root scope passed to Start — cancelling the root
cancels it (and the watch loop, which runs on the root scope itself).
Monitors started or restarted by a reconciliation step, however, get a
scope derived from context.Background(): their ancestor chain is exactly
the background scope, so they are not descendants of the root and
cancelling the root does not cancel them. -/
theorem cancellation_hierarchy_amended (root : Ctx) :
    (∀ cfg base s', start root (initState cfg base) = .ok s' →
      ∀ url m, mapLookup url s'.endpoints = some m →
        isDescendantOf root m.scope = true) ∧
    (∀ e s n evs r, e.enabled = true →
      processEndpoint e s n evs = .ok r →
      ∀ m, mapLookup e.url r.1.endpoints = some m →
        mapLookup e.url s.endpoints = some m ∨
        m.scope.ancestors = [background.id]) ∧
    (root.id ≠ background.id →
      ∀ c : Ctx, c.ancestors = [background.id] → isDescendantOf root c = false) := by
  refine ⟨?_, ?_, ?_⟩
  · intro cfg base s' h url m hm
    cases hsl : startList root (initState cfg base).config.endpoints (initState cfg base) with
    | error err =>
      simp only [start] at h
      rw [hsl] at h
      cases h
    | ok s0 =>
      simp only [start] at h
      rw [hsl] at h
      cases h
      rcases startList_monitor_ancestors root _ _ s0 hsl url m hm with h' | h'
      · simp [initState, mapLookup] at h'
      · simp [isDescendantOf, h']
  · intro e s n evs r he hproc m hm
    cases hml : mapLookup e.url s.endpoints with
    | some m0 =>
      by_cases heq : endpointConfigEqual m0.endpoint e = true
      · rw [processEndpoint_unchanged e s n evs m0 he hml heq] at hproc
        cases hproc
        exact Or.inl (by rw [← hml]; exact hm)
      · have heq' : endpointConfigEqual m0.endpoint e = false := by simpa using heq
        rw [processEndpoint_changed e s n evs m0 he hml heq'] at hproc
        cases hproc
        rw [mapLookup_mapInsert, if_pos rfl] at hm
        cases hm
        exact Or.inr rfl
    | none =>
      rw [processEndpoint_new e s n evs he hml] at hproc
      cases hproc
      rw [mapLookup_mapInsert, if_pos rfl] at hm
      cases hm
      exact Or.inr rfl
  · intro hne c hc
    have h0 : root.id ≠ 0 := by simpa [background] using hne
    simp [isDescendantOf, hc, background]
    exact fun h' => h0 h'

/-- Witness for C3's amended statement: the Start-created monitor's scope
descends from the concrete root; the reload-restarted monitor's scope does
not. -/
theorem cancellation_hierarchy_amended_witness :
    isDescendantOf root0 (⟨2, [1, 0]⟩ : Ctx) = true ∧
    isDescendantOf root0 (⟨3, [0]⟩ : Ctx) = false := by
  constructor
  · exact (cancellation_hierarchy_amended root0).1 cfgA 2 runStartA rfl
      "u" ⟨epA, ⟨2, [1, 0]⟩⟩ (by decide)
  · exact (cancellation_hierarchy_amended root0).2.2 (by decide) ⟨3, [0]⟩ rfl

/-- C4 (amended): during reconciliation, an enabled endpoint whose URL has
a running monitor is cancelled and restarted — with a fresh scope derived
from the background context and a fresh loop — exactly when one of URL,
interval, timeout, name or tags differs from the monitor's snapshot; the
comparison ignores the description field, so a description-only change
leaves the monitor untouched; an enabled endpoint whose URL has no running
monitor is started without any cancellation. -/
theorem reconcile_restart_condition (e : Endpoint) (s : ServiceState)
    (n : List (String × EndpointMonitor)) (evs : List Event)
    (he : e.enabled = true) :
    (∀ a b : Endpoint, endpointConfigEqual a b = true ↔
      (a.url = b.url ∧ a.interval = b.interval ∧ a.timeout = b.timeout ∧
       a.name = b.name ∧ a.tags = b.tags)) ∧
    (∀ m, mapLookup e.url s.endpoints = some m →
      endpointConfigEqual m.endpoint e = false →
      processEndpoint e s n evs = .ok
        ({ s with
           endpoints := mapInsert e.url ⟨e, withCancel background s.nextScope⟩ s.endpoints,
           cancelled := s.cancelled ++ [m.scope.id],
           nextScope := s.nextScope + 1,
           workers := s.workers + 1,
           loops := s.loops ++ [⟨withCancel background s.nextScope, e.url⟩] },
         mapInsert e.url ⟨e, withCancel background s.nextScope⟩ n,
         evs ++ [.cancelledScope m.scope.id, .started e.url])) ∧
    (∀ m, mapLookup e.url s.endpoints = some m →
      endpointConfigEqual m.endpoint e = true →
      processEndpoint e s n evs = .ok (s, mapInsert e.url m n, evs)) ∧
    (mapLookup e.url s.endpoints = none →
      processEndpoint e s n evs = .ok
        ({ s with
           endpoints := mapInsert e.url ⟨e, withCancel background s.nextScope⟩ s.endpoints,
           nextScope := s.nextScope + 1,
           workers := s.workers + 1,
           loops := s.loops ++ [⟨withCancel background s.nextScope, e.url⟩] },
         mapInsert e.url ⟨e, withCancel background s.nextScope⟩ n,
         evs ++ [.started e.url])) :=
  ⟨endpointConfigEqual_iff,
   fun m hm heq => processEndpoint_changed e s n evs m he hm heq,
   fun m hm heq => processEndpoint_unchanged e s n evs m he hm heq,
   fun hm => processEndpoint_new e s n evs he hm⟩

/-- Witness for C4's amended statement: a changed interval restarts the
concrete monitor; a changed description leaves it untouched. -/
theorem reconcile_restart_condition_witness :
    processEndpoint epAFast runStartA [] [] = .ok
      ({ runStartA with
         endpoints := mapInsert epAFast.url
           ⟨epAFast, withCancel background runStartA.nextScope⟩ runStartA.endpoints,
         cancelled := runStartA.cancelled ++ [2],
         nextScope := runStartA.nextScope + 1,
         workers := runStartA.workers + 1,
         loops := runStartA.loops ++ [⟨withCancel background runStartA.nextScope, epAFast.url⟩] },
       mapInsert epAFast.url ⟨epAFast, withCancel background runStartA.nextScope⟩ [],
       [] ++ [.cancelledScope 2, .started epAFast.url]) ∧
    processEndpoint epANewDesc runStartA [] [] = .ok
      (runStartA, mapInsert epANewDesc.url ⟨epA, ⟨2, [1, 0]⟩⟩ [], []) :=
  ⟨(reconcile_restart_condition epAFast runStartA [] [] rfl).2.1
      ⟨epA, ⟨2, [1, 0]⟩⟩ (by decide) (by decide),
   (reconcile_restart_condition epANewDesc runStartA [] [] rfl).2.2.1
      ⟨epA, ⟨2, [1, 0]⟩⟩ (by decide) (by decide)⟩

/-- C5 (counterexample): reconciliation is not idempotent on every service
state.  After Start on the duplicate-URL configuration, reconciling with
the byte-identical active configuration cancels and restarts monitors:
the single map entry holds the second endpoint's snapshot, so the first
endpoint compares unequal and is restarted, after which the second
compares unequal in turn — two cancels and two starts per cycle, every
cycle. -/
theorem identical_reload_restarts_on_duplicate_url :
    runStartDup.config = cfgDupSame.monitor ∧
    (reloadConfig (.ok cfgDupSame) runStartDup).toOption.map (fun r => r.2) =
      some [Event.cancelledScope 3, Event.started "u",
            Event.cancelledScope 4, Event.started "u"] := by decide

/-- C5 (amended): reconciling with a configuration identical to the active
one cancels no monitor and starts no monitor provided every enabled
endpoint's compared fields (URL, interval, timeout, name, tags) equal the
snapshot of the monitor currently registered under its URL — which is
automatic when no two enabled endpoints share a URL.  Then the event trace
is empty, cancelled/loops/nextScope/workers are unchanged, and the rebuilt
map has exactly the same entries; only the stored configuration snapshot
is (re)assigned.  (With two enabled endpoints sharing a URL the single map
entry can match at most one of them, and the identical configuration
restarts monitors every cycle — see the counterexample.) -/
theorem reload_idempotent (cfg : Config) (s : ServiceState)
    (hmatch : ∀ e ∈ cfg.monitor.endpoints, e.enabled = true →
      ∃ m, mapLookup e.url s.endpoints = some m ∧ endpointConfigEqual m.endpoint e = true)
    (hcover : ∀ p ∈ s.endpoints, ∃ e ∈ cfg.monitor.endpoints,
      e.enabled = true ∧ e.url = p.1) :
    ∃ n', reloadConfig (.ok cfg) s =
        .ok ({ s with endpoints := n', config := cfg.monitor }, []) ∧
      ∀ url, mapLookup url n' = mapLookup url s.endpoints := by
  obtain ⟨n', hrl, ha, hmono, hall⟩ :=
    reloadLoop_idem cfg.monitor.endpoints s [] []
      hmatch (by intro url m h; simp [mapLookup] at h)
  have hpresent : ∀ p ∈ s.endpoints, (mapLookup p.1 n').isSome = true := by
    intro p hp
    obtain ⟨e, hein, hen, hurl⟩ := hcover p hp
    rw [← hurl]
    exact hall e hein hen
  have hrp := removePhase_all_present n' s.endpoints s.cancelled [] hpresent
  refine ⟨n', ?_, ?_⟩
  · simp [reloadConfig, hrl, hrp]
  · intro url
    cases hl : mapLookup url n' with
    | some m => exact (ha url m hl).symm
    | none =>
      cases hs : mapLookup url s.endpoints with
      | none => rfl
      | some m =>
        have h2 : (mapLookup url n').isSome = true :=
          hpresent (url, m) (mem_of_mapLookup url m s.endpoints hs)
        rw [hl] at h2
        cases h2

/-- Witness for C5 at the concrete post-Start state and an identical
fetched configuration. -/
theorem reload_idempotent_witness :
    ∃ n', reloadConfig (.ok cfgASame) runStartA =
        .ok ({ runStartA with endpoints := n', config := cfgASame.monitor }, []) ∧
      ∀ url, mapLookup url n' = mapLookup url runStartA.endpoints := by
  refine reload_idempotent cfgASame runStartA ?_ ?_
  · intro e he hen
    have he' : e = epA := by simpa [cfgASame, cfgA] using he
    subst he'
    exact ⟨⟨epA, ⟨2, [1, 0]⟩⟩, by decide, by decide⟩
  · intro p hp
    have hre : runStartA.endpoints = [("u", ⟨epA, ⟨2, [1, 0]⟩⟩)] := by decide
    rw [hre] at hp
    have hp' : p = ("u", ⟨epA, ⟨2, [1, 0]⟩⟩) := by simpa using hp
    subst hp'
    exact ⟨epA, by simp [cfgASame, cfgA], rfl, by decide⟩

/-- C6 (counterexample, both failing parts of the claimed invariant):
Start on a configuration with two enabled endpoints sharing one URL leaves
a single map entry but two live polling loops bound to that URL; and
Shutdown does not preserve the invariant either — after Shutdown of the
single-endpoint state the map entry is still present while its live
polling-loop count has dropped to zero, not one. -/
theorem duplicate_url_breaks_single_loop_invariant :
    (runStartDup.endpoints.map Prod.fst = ["u"] ∧
     (liveLoops runStartDup "u").length = 2) ∧
    ((mapLookup "u" (serviceShutdown runStartA 30 none).1.endpoints).isSome = true ∧
     (liveLoops (serviceShutdown runStartA 30 none).1 "u").length = 0) := by decide

/-- C6 (amended): for every state reachable by Start on a configuration
whose enabled URLs are pairwise distinct, followed by any number of
successful reconciliations, the monitor map's keys are exactly the URLs of
the enabled endpoints of the most recently reconciled configuration, and
every map entry has exactly one live polling loop.  Shutdown does not
preserve this invariant: it cancels every monitor's scope while leaving
the map entries in place, so afterwards every entry still exists but has
exactly zero live polling loops.  (And with two enabled endpoints sharing
a URL the second overwrites the first's map entry while both loops run, so
the one-live-loop part already fails at Start — see the counterexample.) -/
theorem map_reflects_config_invariant (base : Nat) (root : Ctx) (s : ServiceState)
    (hbase : 0 < base) (hroot : parentOk base root) (hreach : Reachable base root s) :
    (∀ url, (mapLookup url s.endpoints).isSome = true ↔ url ∈ enabledUrls s.config) ∧
    (∀ url m, mapLookup url s.endpoints = some m → (liveLoops s url).length = 1) ∧
    (∀ url m (deadline : Int) (drainTime : Option Int),
      mapLookup url s.endpoints = some m →
      mapLookup url (serviceShutdown s deadline drainTime).1.endpoints = some m ∧
      (liveLoops (serviceShutdown s deadline drainTime).1 url).length = 0) := by
  have hinv := reachable_inv base root s hbase hroot hreach
  exact ⟨hinv.2, hinv.1.loop_one,
    fun url m deadline drainTime hm =>
      shutdown_zero_live_loops base s hinv url m hm deadline drainTime⟩

/-- Witness for C6's amended statement at the concrete post-Start state. -/
theorem map_reflects_config_invariant_witness :
    ((mapLookup "u" runStartA.endpoints).isSome = true ↔ "u" ∈ enabledUrls runStartA.config) ∧
    (liveLoops runStartA "u").length = 1 ∧
    (mapLookup "u" (serviceShutdown runStartA 30 none).1.endpoints =
        some ⟨epA, ⟨2, [1, 0]⟩⟩ ∧
      (liveLoops (serviceShutdown runStartA 30 none).1 "u").length = 0) :=
  ⟨(map_reflects_config_invariant 2 root0 runStartA (by decide) ⟨by decide, by decide⟩
      (Reachable.init cfgA runStartA (by decide) rfl)).1 "u",
   (map_reflects_config_invariant 2 root0 runStartA (by decide) ⟨by decide, by decide⟩
      (Reachable.init cfgA runStartA (by decide) rfl)).2.1 "u" ⟨epA, ⟨2, [1, 0]⟩⟩ (by decide),
   (map_reflects_config_invariant 2 root0 runStartA (by decide) ⟨by decide, by decide⟩
      (Reachable.init cfgA runStartA (by decide) rfl)).2.2 "u" ⟨epA, ⟨2, [1, 0]⟩⟩ 30 none
      (by decide)⟩

/-- C7: a failed configuration fetch leaves the reconciliation cycle
without any state change — reloadConfig returns the wrapped error without
touching the state, and the watch loop keeps the previous state and
continues running. -/
theorem reload_error_atomic (err : String) (s : ServiceState) :
    watchStep (.tick (.error err)) s = (s, [], true) ∧
    reloadConfig (.error err) s = .error ("failed to reload config: " ++ err) :=
  ⟨rfl, rfl⟩

/-- C8: on every tick of a polling loop the produced HealthCheck is handed
to storage, lastCheck becomes the probe's timestamp, and the loop keeps
running — all independently of whether the storage write failed. -/
theorem monitor_tick_persists_and_updates (endp : Endpoint) (now : Int)
    (probe : ProbeResult) (saveResult : Option String) (ls : LoopState) :
    monitorStep endp now (.tick probe saveResult) ls =
      ({ lastCheck := now }, some (performHealthCheck endp now probe), true) ∧
    (performHealthCheck endp now probe).timestamp = now := by
  have ht : (performHealthCheck endp now probe).timestamp = now := by
    cases probe with
    | failure msg => rfl
    | response code elapsedMs =>
      by_cases h : (code == 200) = true <;> simp [performHealthCheck, h]
  exact ⟨by simp [monitorStep, ht], ht⟩

/-- C9: the bounded drain succeeds exactly when the outstanding-worker
count reaches zero strictly before the deadline (both for
ShutdownManager.Shutdown and for Service.Shutdown's error result), and
Shutdown stops no loop and removes no worker or monitor entry by force. -/
theorem drain_deadline_semantics (timeout deadline : Int)
    (drainTime : Option Int) (s : ServiceState) :
    (shutdownManagerShutdown timeout drainTime = true ↔
      ∃ t, drainTime = some t ∧ t < timeout) ∧
    ((serviceShutdown s deadline drainTime).2 = .ok () ↔
      ∃ t, drainTime = some t ∧ t < deadline) ∧
    (serviceShutdown s deadline drainTime).1.loops = s.loops ∧
    (serviceShutdown s deadline drainTime).1.workers = s.workers ∧
    (serviceShutdown s deadline drainTime).1.endpoints = s.endpoints := by
  refine ⟨?_, ?_, ?_, ?_, ?_⟩ <;>
    cases drainTime <;>
    simp [shutdownManagerShutdown, serviceShutdown] <;>
    split <;> simp_all

/-- C10: startEndpoint cannot fail, hence Start succeeds on every
configuration and reloadConfig succeeds whenever the configuration fetch
did. -/
theorem start_paths_never_fail :
    (∀ parent e s, ∃ s', startEndpoint parent e s = .ok s') ∧
    (∀ root s, ∃ s', start root s = .ok s') ∧
    (∀ cfg s, ∃ r, reloadConfig (.ok cfg) s = .ok r) := by
  refine ⟨fun parent e s => ⟨_, startEndpoint_eq parent e s⟩, ?_, ?_⟩
  · intro root s
    obtain ⟨s', h⟩ := startList_ok root s.config.endpoints s
    exact ⟨{ s' with workers := s'.workers + 1, watchScope := some root },
      by simp [start, h]⟩
  · intro cfg s
    obtain ⟨⟨s2, newEnds, evs⟩, h⟩ := reloadLoop_ok cfg.monitor.endpoints s [] []
    exact ⟨({ s2 with
              endpoints := newEnds,
              config := cfg.monitor,
              cancelled := (removePhase newEnds s2.endpoints s2.cancelled evs).1 },
            (removePhase newEnds s2.endpoints s2.cancelled evs).2),
      by simp [reloadConfig, h]⟩

end Monitord
